import Mathlib

/-
Verification of lib/go/context.go from the frugal repository.

The Go source is embedded shallowly:
* Go maps are reference values, so the model keeps a heap of map objects
  (`World`) addressed by allocation index; an `FContextImpl` holds three
  heap references, exactly like the three map fields of the Go struct.
* Machine integers are `Nat`/`Int` with explicit reduction modulo `2 ^ 64`
  where the Go code can overflow (the `nextOpID` counter is a `uint64`,
  and `time.Millisecond * time.Duration(m)` is an `int64` multiplication).
* The Go standard-library routines used by the source
  (`strconv.FormatUint`, `strconv.FormatInt`, `strconv.ParseUint`,
  `strconv.ParseInt`, all with base ten and bit size 64) are embedded as
  executable functions with the same success and range behaviour.
* The `sync.RWMutex` only serializes access; the model is the sequential
  linearization, in which the mutex has no observable effect.
-/

set_option maxHeartbeats 1000000

namespace Frugal

/-! ## Go strconv: decimal formatting and parsing (base 10, bit size 64) -/

/-- Decimal digit character for a value below ten. -/
def digitChar (n : Nat) : Char := Char.ofNat (48 + n)

/-- Digit loop of Go strconv.FormatUint with base ten, structurally
recursive on a fuel argument so that the kernel can evaluate it (the fuel
never runs out when it starts at the number itself). -/
def natDigitsFuel : Nat → Nat → List Char
  | 0, _ => []
  | fuel + 1, n => if n = 0 then [] else natDigitsFuel fuel (n / 10) ++ [digitChar (n % 10)]

/-- Decimal digits of a natural number, most significant first; empty for
zero.  This is the digit loop of Go strconv.FormatUint with base ten. -/
def natToDigits (n : Nat) : List Char := natDigitsFuel n n

/-- Go strconv.FormatUint with base ten: the decimal string of an unsigned
value. -/
def formatUint (n : Nat) : String := if n = 0 then "0" else String.mk (natToDigits n)

/-- Go strconv.FormatInt with base ten: a minus sign followed by the decimal
digits of the absolute value for negative input, plain digits otherwise. -/
def formatInt (i : Int) : String :=
  if i < 0 then "-" ++ formatUint i.natAbs else formatUint i.toNat

/-- Numeric value of one decimal digit character, none for any other
character. -/
def digitVal (c : Char) : Option Nat :=
  if 48 ≤ c.toNat ∧ c.toNat ≤ 57 then some (c.toNat - 48) else none

/-- Accumulating decimal scan over characters (the conversion loop of Go
strconv.ParseUint); fails on any non-digit character. -/
def scanDigits : List Char → Nat → Option Nat
  | [], acc => some acc
  | c :: rest, acc =>
    match digitVal c with
    | some d => scanDigits rest (acc * 10 + d)
    | none => none

/-- Go strconv.ParseUint with base ten and bit size 64: succeeds exactly on a
nonempty all-digit string whose value fits in an unsigned 64-bit integer. -/
def parseUint64 (s : String) : Option Nat :=
  match s.data with
  | [] => none
  | c :: cs =>
    match scanDigits (c :: cs) 0 with
    | some n => if n < 2 ^ 64 then some n else none
    | none => none

/-- Digit part of Go strconv.ParseInt after the sign has been taken off:
a nonempty digit string, with the signed 64-bit range check (the negative
side admits 2 ^ 63 itself, as Go does). -/
def parseIntDigits (neg : Bool) (ds : List Char) : Option Int :=
  match ds with
  | [] => none
  | d :: ds2 =>
    match scanDigits (d :: ds2) 0 with
    | none => none
    | some n =>
      if neg then
        if n ≤ 2 ^ 63 then some (-(n : Int)) else none
      else
        if n < 2 ^ 63 then some (n : Int) else none

/-- Go strconv.ParseInt with base ten and bit size 64: an optional single
sign, then a nonempty digit string, with the signed 64-bit range check. -/
def parseInt64 (s : String) : Option Int :=
  match s.data with
  | [] => none
  | c :: cs =>
    if c = '-' then parseIntDigits true cs
    else if c = '+' then parseIntDigits false cs
    else parseIntDigits false (c :: cs)

/-! ## Association-list model of Go maps -/

/-- Lookup in the association-list model of a Go map (each key occurs in at
most one binding; the first binding wins). -/
def mapLookup {α β : Type} [DecidableEq α] : List (α × β) → α → Option β
  | [], _ => none
  | (k, v) :: rest, a => if k = a then some v else mapLookup rest a

/-- Insert-or-overwrite in the association-list model of a Go map. -/
def mapInsert {α β : Type} [DecidableEq α] : List (α × β) → α → β → List (α × β)
  | [], k, v => [(k, v)]
  | (k1, v1) :: rest, k, v =>
    if k1 = k then (k, v) :: rest else (k1, v1) :: mapInsert rest k v

/-- The keys of a map, in binding order. -/
def keysOf {α β : Type} (m : List (α × β)) : List α := m.map Prod.fst

/-- Number of bindings a map holds for a key (for a Go map this is one when
the key is present and zero otherwise). -/
def countKey {α β : Type} [DecidableEq α] (m : List (α × β)) (k : α) : Nat :=
  (keysOf m).count k

/-! ## Constants of context.go -/

/-- Header containing correlation id. -/
def cidHeader : String := "_cid"

/-- Header containing op id (uint64 as string). -/
def opIDHeader : String := "_opid"

/-- Header containing request timeout (milliseconds as string). -/
def timeoutHeader : String := "_timeout"

/-- Default request timeout: 5 * time.Second, in nanoseconds (a Go
time.Duration is an int64 count of nanoseconds). -/
def defaultTimeout : Int := 5000000000

/-- Go division of a time.Duration by time.Millisecond (1000000 ns):
int64 division truncates toward zero. -/
def durationDivMs (d : Int) : Int :=
  if 0 ≤ d then ((d.toNat / 1000000 : Nat) : Int) else -(((-d).toNat / 1000000 : Nat) : Int)

/-- Value of the int64 denoted by an unbounded integer (two's-complement
wraparound); the multiplication time.Millisecond * time.Duration(m) in
Timeout is an int64 multiplication and is wrapped through this. -/
def wrap64 (x : Int) : Int := (x + 2 ^ 63) % 2 ^ 64 - 2 ^ 63

/-! ## The heap of Go map objects and the package-global state -/

/-- Go maps are reference values, so the model keeps every live
map[string]string object in a heap heapS and every
map[interface]interface object in a heap heapE, addressed by allocation
index, together with the package-level state of context.go: the uint64
counter nextOpID (kept below 2 ^ 64) and the replaceable package-level
generateCorrelationID function (default nuid.Next, a random-string
generator external to the repository), modelled as the pure stream cidGen
consumed at position cidUsed. -/
structure World (κ ν : Type) where
  heapS : List (List (String × String))
  heapE : List (List (κ × ν))
  nextOpID : Nat
  cidGen : Nat → String
  cidUsed : Nat

/-- Read the string-map object at a reference (the modelled programs never
read through a dangling reference; out-of-range reads default to the empty
map). -/
def World.readS {κ ν : Type} (w : World κ ν) (r : Nat) : List (String × String) :=
  (w.heapS[r]?).getD []

/-- Overwrite the string-map object at a reference. -/
def World.writeS {κ ν : Type} (w : World κ ν) (r : Nat) (m : List (String × String)) :
    World κ ν :=
  { w with heapS := w.heapS.set r m }

/-- Allocate a fresh string-map object; make(map[string]string) and the map
copies built by the accessor methods go through this. -/
def World.allocS {κ ν : Type} (w : World κ ν) (m : List (String × String)) :
    Nat × World κ ν :=
  (w.heapS.length, { w with heapS := w.heapS ++ [m] })

/-- Read the ephemeral-property map object at a reference. -/
def World.readE {κ ν : Type} (w : World κ ν) (r : Nat) : List (κ × ν) :=
  (w.heapE[r]?).getD []

/-- Overwrite the ephemeral-property map object at a reference. -/
def World.writeE {κ ν : Type} (w : World κ ν) (r : Nat) (m : List (κ × ν)) : World κ ν :=
  { w with heapE := w.heapE.set r m }

/-- Allocate a fresh ephemeral-property map object. -/
def World.allocE {κ ν : Type} (w : World κ ν) (m : List (κ × ν)) : Nat × World κ ν :=
  (w.heapE.length, { w with heapE := w.heapE ++ [m] })

/-- getNextOpID from context.go: atomic.AddUint64 of the package counter by
one (a uint64, wrapping modulo 2 ^ 64) followed by strconv.FormatUint of the
post-increment value. -/
def getNextOpID {κ ν : Type} (w : World κ ν) : String × World κ ν :=
  ((formatUint ((w.nextOpID + 1) % 2 ^ 64)), { w with nextOpID := (w.nextOpID + 1) % 2 ^ 64 })

/-- The package-level generateCorrelationID variable (default: nuid.Next):
returns the next string of the modelled random stream. -/
def generateCorrelationID {κ ν : Type} (w : World κ ν) : String × World κ ν :=
  (w.cidGen w.cidUsed, { w with cidUsed := w.cidUsed + 1 })

/-! ## FContextImpl and its methods -/

/-- FContextImpl from context.go: the three fields are references to the map
objects owned by this context (the sync.RWMutex field only serializes access
and has no observable effect in this sequential model). -/
structure FContextImpl where
  requestHeaders : Nat
  responseHeaders : Nat
  ephemeralProperties : Nat

/-- NewFContext: generate a correlation id when the given one is empty, then
allocate the request-header map holding the three reserved headers, an empty
response-header map and an empty ephemeral-property map. -/
def NewFContext {κ ν : Type} (correlationID : String) (w : World κ ν) :
    FContextImpl × World κ ν :=
  let p1 := if correlationID = "" then generateCorrelationID w else (correlationID, w)
  let p2 := getNextOpID p1.2
  let m := mapInsert (mapInsert (mapInsert ([] : List (String × String))
    cidHeader p1.1) opIDHeader p2.1) timeoutHeader (formatInt (durationDivMs defaultTimeout))
  let a1 := World.allocS p2.2 m
  let a2 := World.allocS a1.2 []
  let a3 := World.allocE a2.2 []
  (⟨a1.1, a2.1, a3.1⟩, a3.2)

/-- CorrelationID: the map read c.requestHeaders[cidHeader] (a Go map read
of an absent key yields the zero value, the empty string). -/
def FContextImpl.CorrelationID {κ ν : Type} (c : FContextImpl) (w : World κ ν) : String :=
  (mapLookup (w.readS c.requestHeaders) cidHeader).getD ""

/-- AddRequestHeader: store the binding in this context's request-header map
(the method returns the receiver, which the model leaves implicit). -/
def FContextImpl.AddRequestHeader {κ ν : Type} (c : FContextImpl) (w : World κ ν)
    (name value : String) : World κ ν :=
  w.writeS c.requestHeaders (mapInsert (w.readS c.requestHeaders) name value)

/-- RequestHeader: the (value, ok) map lookup. -/
def FContextImpl.RequestHeader {κ ν : Type} (c : FContextImpl) (w : World κ ν)
    (name : String) : Option String :=
  mapLookup (w.readS c.requestHeaders) name

/-- RequestHeaders: allocate a fresh map object and copy every binding of the
request-header map into it, returning the fresh reference. -/
def FContextImpl.RequestHeaders {κ ν : Type} (c : FContextImpl) (w : World κ ν) :
    Nat × World κ ν :=
  World.allocS w (w.readS c.requestHeaders)

/-- AddResponseHeader: store the binding in this context's response-header
map. -/
def FContextImpl.AddResponseHeader {κ ν : Type} (c : FContextImpl) (w : World κ ν)
    (name value : String) : World κ ν :=
  w.writeS c.responseHeaders (mapInsert (w.readS c.responseHeaders) name value)

/-- ResponseHeader: the (value, ok) map lookup. -/
def FContextImpl.ResponseHeader {κ ν : Type} (c : FContextImpl) (w : World κ ν)
    (name : String) : Option String :=
  mapLookup (w.readS c.responseHeaders) name

/-- ResponseHeaders: allocate a fresh map object and copy every binding of
the response-header map into it, returning the fresh reference. -/
def FContextImpl.ResponseHeaders {κ ν : Type} (c : FContextImpl) (w : World κ ν) :
    Nat × World κ ν :=
  World.allocS w (w.readS c.responseHeaders)

/-- SetTimeout: store the duration divided by time.Millisecond, formatted by
strconv.FormatInt, under the _timeout request header. -/
def FContextImpl.SetTimeout {κ ν : Type} (c : FContextImpl) (w : World κ ν)
    (timeout : Int) : World κ ν :=
  w.writeS c.requestHeaders
    (mapInsert (w.readS c.requestHeaders) timeoutHeader (formatInt (durationDivMs timeout)))

/-- Timeout: read the _timeout request header (empty string when absent),
parse it with strconv.ParseInt; on any parse error return defaultTimeout,
otherwise time.Millisecond times the parsed value (an int64 product). -/
def FContextImpl.Timeout {κ ν : Type} (c : FContextImpl) (w : World κ ν) : Int :=
  match parseInt64 ((mapLookup (w.readS c.requestHeaders) timeoutHeader).getD "") with
  | none => defaultTimeout
  | some timeoutMillis => wrap64 (1000000 * timeoutMillis)

/-- EphemeralProperty: the (value, ok) map lookup. -/
def FContextImpl.EphemeralProperty {κ ν : Type} [DecidableEq κ] (c : FContextImpl)
    (w : World κ ν) (key : κ) : Option ν :=
  mapLookup (w.readE c.ephemeralProperties) key

/-- EphemeralProperties: allocate a fresh map object and copy every binding
of the ephemeral-property map into it, returning the fresh reference. -/
def FContextImpl.EphemeralProperties {κ ν : Type} (c : FContextImpl) (w : World κ ν) :
    Nat × World κ ν :=
  World.allocE w (w.readE c.ephemeralProperties)

/-- AddEphemeralProperty: store the binding in this context's
ephemeral-property map. -/
def FContextImpl.AddEphemeralProperty {κ ν : Type} [DecidableEq κ] (c : FContextImpl)
    (w : World κ ν) (key : κ) (value : ν) : World κ ν :=
  w.writeE c.ephemeralProperties (mapInsert (w.readE c.ephemeralProperties) key value)

/-- FContextImpl.Clone: build a new context whose three map fields are the
copies made by the RequestHeaders, ResponseHeaders and EphemeralProperties
accessors, then overwrite the clone's _opid request header with a freshly
drawn token. -/
def FContextImpl.Clone {κ ν : Type} (c : FContextImpl) (w : World κ ν) :
    FContextImpl × World κ ν :=
  let a1 := c.RequestHeaders w
  let a2 := c.ResponseHeaders a1.2
  let a3 := c.EphemeralProperties a2.2
  let p := getNextOpID a3.2
  (⟨a1.1, a2.1, a3.1⟩, p.2.writeS a1.1 (mapInsert (p.2.readS a1.1) opIDHeader p.1))

/-- Package-level Clone: for an FContextImpl the type assertion to
FContextWithEphemeralProperties succeeds, so it delegates to the Clone
method. -/
def Clone {κ ν : Type} (ctx : FContextImpl) (w : World κ ν) : FContextImpl × World κ ν :=
  ctx.Clone w

/-- setRequestOpID: overwrite the _opid request header with the decimal
encoding of a caller-supplied uint64. -/
def setRequestOpID {κ ν : Type} (ctx : FContextImpl) (w : World κ ν) (id : Nat) :
    World κ ν :=
  ctx.AddRequestHeader w opIDHeader (formatUint id)

/-- getOpID: read the _opid request header; a missing header or a value
strconv.ParseUint rejects yields the malformed-context error. -/
def getOpID {κ ν : Type} (ctx : FContextImpl) (w : World κ ν) : Except String Nat :=
  match ctx.RequestHeader w opIDHeader with
  | none =>
    Except.error ("FContext does not have the required " ++ opIDHeader ++ " request header")
  | some opIDStr =>
    match parseUint64 opIDStr with
    | none =>
      Except.error ("FContext has an opid that is not a non-negative integer: " ++ opIDStr)
    | some id => Except.ok id

/-- setResponseOpID: write the given literal id string into the response
_opid header. -/
def setResponseOpID {κ ν : Type} (ctx : FContextImpl) (w : World κ ν) (id : String) :
    World κ ν :=
  ctx.AddResponseHeader w opIDHeader id

/-! ## Traces of public operations -/

/-- One public operation on a system of live contexts; indices select the
target context in creation order. -/
inductive GOp (κ ν : Type) where
  | newCtx (cid : String)
  | cloneCtx (i : Nat)
  | addReqHeader (i : Nat) (name value : String)
  | addRespHeader (i : Nat) (name value : String)
  | setTimeoutOp (i : Nat) (d : Int)
  | addEphProp (i : Nat) (k : κ) (v : ν)
  | reqHeadersSnap (i : Nat)
  | respHeadersSnap (i : Nat)
  | ephPropsSnap (i : Nat)

/-- A heap together with every context created so far, in creation order. -/
structure Sys (κ ν : Type) where
  world : World κ ν
  ctxs : List FContextImpl

/-- Apply one public operation (operations aimed at an index with no context
are no-ops). -/
def stepOp {κ ν : Type} [DecidableEq κ] (s : Sys κ ν) (op : GOp κ ν) : Sys κ ν :=
  match op with
  | .newCtx cid =>
    let p := NewFContext cid s.world
    ⟨p.2, s.ctxs ++ [p.1]⟩
  | .cloneCtx i =>
    match s.ctxs[i]? with
    | none => s
    | some c =>
      let p := c.Clone s.world
      ⟨p.2, s.ctxs ++ [p.1]⟩
  | .addReqHeader i n v =>
    match s.ctxs[i]? with
    | none => s
    | some c => ⟨c.AddRequestHeader s.world n v, s.ctxs⟩
  | .addRespHeader i n v =>
    match s.ctxs[i]? with
    | none => s
    | some c => ⟨c.AddResponseHeader s.world n v, s.ctxs⟩
  | .setTimeoutOp i d =>
    match s.ctxs[i]? with
    | none => s
    | some c => ⟨c.SetTimeout s.world d, s.ctxs⟩
  | .addEphProp i k v =>
    match s.ctxs[i]? with
    | none => s
    | some c => ⟨c.AddEphemeralProperty s.world k v, s.ctxs⟩
  | .reqHeadersSnap i =>
    match s.ctxs[i]? with
    | none => s
    | some c => ⟨(c.RequestHeaders s.world).2, s.ctxs⟩
  | .respHeadersSnap i =>
    match s.ctxs[i]? with
    | none => s
    | some c => ⟨(c.ResponseHeaders s.world).2, s.ctxs⟩
  | .ephPropsSnap i =>
    match s.ctxs[i]? with
    | none => s
    | some c => ⟨(c.EphemeralProperties s.world).2, s.ctxs⟩

/-- Run a trace of public operations. -/
def runOps {κ ν : Type} [DecidableEq κ] (s : Sys κ ν) (ops : List (GOp κ ν)) : Sys κ ν :=
  ops.foldl stepOp s

/-- The fresh package state at process start: empty heaps, the uint64
counter at zero, no correlation id drawn yet. -/
def initWorld (κ ν : Type) (gen : Nat → String) : World κ ν :=
  ⟨[], [], 0, gen, 0⟩

/-- A fresh system: the fresh package state beside an empty context list. -/
def initSys (κ ν : Type) (gen : Nat → String) : Sys κ ν :=
  ⟨initWorld κ ν gen, []⟩

/-- Whether an operation is a construction or a clone (the two operations
that draw an operation id). -/
def isCreation {κ ν : Type} : GOp κ ν → Bool
  | .newCtx _ => true
  | .cloneCtx _ => true
  | _ => false

/-- Restriction under which the _timeout header keeps parsing as a
non-negative integer: SetTimeout only with non-negative int64 durations and
no direct overwrite of the _timeout header through AddRequestHeader. -/
def timeoutSafe {κ ν : Type} : GOp κ ν → Prop
  | .addReqHeader _ n _ => n ≠ timeoutHeader
  | .setTimeoutOp _ d => 0 ≤ d ∧ d < 2 ^ 63
  | _ => True

/-- One mutation of a single context through its public mutator methods. -/
inductive MutOp (κ ν : Type) where
  | addReq (name value : String)
  | addResp (name value : String)
  | setTO (d : Int)
  | addEph (k : κ) (v : ν)

/-- Apply one mutator method to a context. -/
def applyMut {κ ν : Type} [DecidableEq κ] (c : FContextImpl) (w : World κ ν) :
    MutOp κ ν → World κ ν
  | .addReq n v => c.AddRequestHeader w n v
  | .addResp n v => c.AddResponseHeader w n v
  | .setTO d => c.SetTimeout w d
  | .addEph k v => c.AddEphemeralProperty w k v

/-- The contents of the three map objects a context refers to. -/
def mapsOf {κ ν : Type} (w : World κ ν) (c : FContextImpl) :
    List (String × String) × List (String × String) × List (κ × ν) :=
  (w.readS c.requestHeaders, w.readS c.responseHeaders, w.readE c.ephemeralProperties)

/-- The _opid request-header value of a context. -/
def opidHeaderOf {κ ν : Type} (s : Sys κ ν) (c : FContextImpl) : Option String :=
  mapLookup (s.world.readS c.requestHeaders) opIDHeader

/-- The parsed _opid request-header value of a context. -/
def vOf {κ ν : Type} (s : Sys κ ν) (c : FContextImpl) : Option Nat :=
  (mapLookup (s.world.readS c.requestHeaders) opIDHeader).bind parseUint64

/-- Iterate the op-id generator (draw n tokens, discarding them). -/
def drawMany {κ ν : Type} (w : World κ ν) : Nat → World κ ν
  | 0 => w
  | n + 1 => (getNextOpID (drawMany w n)).2

/-- A context whose three map references point into the live heap. -/
def CtxLive {κ ν : Type} (w : World κ ν) (c : FContextImpl) : Prop :=
  c.requestHeaders < w.heapS.length ∧ c.responseHeaders < w.heapS.length ∧
    c.ephemeralProperties < w.heapE.length

/-- Invariant for the op-id uniqueness argument: every live context's map
references are valid, its _opid request header parses to a token between 1
and the current counter value, and parsed tokens strictly increase in
creation order. -/
def OpidInv {κ ν : Type} (s : Sys κ ν) : Prop :=
  (∀ c ∈ s.ctxs, CtxLive s.world c) ∧
    (∀ c ∈ s.ctxs, ∃ v, vOf s c = some v ∧ 1 ≤ v ∧ v ≤ s.world.nextOpID) ∧
    s.ctxs.Pairwise (fun a b => ∀ va vb, vOf s a = some va → vOf s b = some vb → va < vb)

/-- A request-header map holding exactly one _cid, one _opid and one
_timeout binding, with _timeout parsing as a non-negative integer. -/
def ReservedMap (m : List (String × String)) : Prop :=
  countKey m cidHeader = 1 ∧ countKey m opIDHeader = 1 ∧ countKey m timeoutHeader = 1 ∧
    ∃ str i, mapLookup m timeoutHeader = some str ∧ parseInt64 str = some i ∧ 0 ≤ i

/-- No context's request map object is any context's response map object
(construction and cloning always allocate them separately). -/
def ReqRespDisjoint {κ ν : Type} (s : Sys κ ν) : Prop :=
  ∀ c ∈ s.ctxs, ∀ c2 ∈ s.ctxs, c.requestHeaders ≠ c2.responseHeaders

/-- Invariant for the reserved-header argument: references valid and
request/response map objects disjoint, and every live context's request map
is a ReservedMap. -/
def ReservedInv {κ ν : Type} (s : Sys κ ν) : Prop :=
  (∀ c ∈ s.ctxs, CtxLive s.world c) ∧ ReqRespDisjoint s ∧
    ∀ c ∈ s.ctxs, ReservedMap (s.world.readS c.requestHeaders)

/-! ## Concrete scenario fixtures used by witnesses and counterexamples -/

/-- A fixed correlation-id generator for concrete scenarios. -/
def genFixed : Nat → String := fun _ => "generated-id"

/-- A fresh process state over string-keyed ephemeral properties. -/
def testWorld : World String String := initWorld String String genFixed

/-- A context constructed with correlation id "abc" in the fresh state. -/
def ctxA : FContextImpl := (NewFContext "abc" testWorld).1

/-- The state after constructing ctxA. -/
def worldA : World String String := (NewFContext "abc" testWorld).2

/-- The state after overwriting ctxA's _opid header with "2", the token the
generator will draw next. -/
def worldA2 : World String String := ctxA.AddRequestHeader worldA opIDHeader "2"

/-- The clone of ctxA taken after the _opid overwrite. -/
def ctxB : FContextImpl := (ctxA.Clone worldA2).1

/-- The state after cloning ctxA in worldA2. -/
def worldB : World String String := (ctxA.Clone worldA2).2

/-- The clone of ctxA taken in worldA (no tampering). -/
def ctxC : FContextImpl := (ctxA.Clone worldA).1

/-- The state after cloning ctxA in worldA. -/
def worldC : World String String := (ctxA.Clone worldA).2

/-! ## Lemmas about formatting and parsing -/

theorem digitVal_digitChar (r : Nat) (hr : r < 10) : digitVal (digitChar r) = some r := by
  interval_cases r <;> decide

theorem digitChar_ne_minus (r : Nat) (hr : r < 10) : digitChar r ≠ '-' := by
  interval_cases r <;> decide

theorem digitChar_ne_plus (r : Nat) (hr : r < 10) : digitChar r ≠ '+' := by
  interval_cases r <;> decide

theorem scanDigits_append (l1 l2 : List Char) (acc : Nat) :
    scanDigits (l1 ++ l2) acc =
      match scanDigits l1 acc with
      | some m => scanDigits l2 m
      | none => none := by
  induction l1 generalizing acc with
  | nil => simp [scanDigits]
  | cons c rest ih =>
    simp only [List.cons_append, scanDigits]
    cases digitVal c with
    | none => simp
    | some d => simpa using ih (acc * 10 + d)

theorem natToDigits_zero : natToDigits 0 = [] := rfl

theorem natToDigits_ne_nil (n : Nat) (hn : n ≠ 0) : natToDigits n ≠ [] := by
  rcases n with _ | m
  · exact absurd rfl hn
  · show natDigitsFuel (m + 1) (m + 1) ≠ []
    rw [natDigitsFuel]
    simp

theorem natDigitsFuel_mem (fuel : Nat) :
    ∀ n, ∀ c ∈ natDigitsFuel fuel n, ∃ r, r < 10 ∧ c = digitChar r := by
  induction fuel with
  | zero =>
    intro n c hc
    simp [natDigitsFuel] at hc
  | succ fuel ih =>
    intro n c hc
    rw [natDigitsFuel] at hc
    by_cases hn : n = 0
    · simp [hn] at hc
    · rw [if_neg hn] at hc
      rcases List.mem_append.mp hc with h1 | h2
      · exact ih (n / 10) c h1
      · exact ⟨n % 10, Nat.mod_lt n (by omega), by simpa using h2⟩

theorem natToDigits_mem (n : Nat) : ∀ c ∈ natToDigits n, ∃ r, r < 10 ∧ c = digitChar r :=
  natDigitsFuel_mem n n

theorem scanDigits_natDigitsFuel (fuel : Nat) :
    ∀ n acc, n ≤ fuel →
      scanDigits (natDigitsFuel fuel n) acc
        = some (acc * 10 ^ (natDigitsFuel fuel n).length + n) := by
  induction fuel with
  | zero =>
    intro n acc hn
    have : n = 0 := by omega
    subst this
    simp [natDigitsFuel, scanDigits]
  | succ fuel ih =>
    intro n acc hn
    by_cases h0 : n = 0
    · subst h0
      simp [natDigitsFuel, scanDigits]
    · rw [natDigitsFuel, if_neg h0, scanDigits_append]
      have hdiv : n / 10 ≤ fuel := by
        have := Nat.div_lt_self (Nat.pos_of_ne_zero h0) (by omega : (1 : Nat) < 10)
        omega
      rw [ih (n / 10) acc hdiv]
      simp only [scanDigits, digitVal_digitChar (n % 10) (Nat.mod_lt n (by omega))]
      have hdm : 10 * (n / 10) + n % 10 = n := Nat.div_add_mod n 10
      have hlen : ((natDigitsFuel fuel (n / 10)) ++ [digitChar (n % 10)]).length
          = (natDigitsFuel fuel (n / 10)).length + 1 := by simp
      rw [hlen]
      congr 1
      have hring : (acc * 10 ^ (natDigitsFuel fuel (n / 10)).length + n / 10) * 10 + n % 10
          = acc * 10 ^ ((natDigitsFuel fuel (n / 10)).length + 1) + (10 * (n / 10) + n % 10) := by
        ring
      rw [hring, hdm]

theorem scanDigits_natToDigits (n : Nat) :
    ∀ acc, scanDigits (natToDigits n) acc = some (acc * 10 ^ (natToDigits n).length + n) :=
  fun acc => scanDigits_natDigitsFuel n n acc (Nat.le_refl n)

theorem parseUint64_formatUint (n : Nat) (hn : n < 2 ^ 64) :
    parseUint64 (formatUint n) = some n := by
  by_cases h0 : n = 0
  · subst h0; decide
  · have hne := natToDigits_ne_nil n h0
    rcases hd : natToDigits n with _ | ⟨c, cs⟩
    · exact absurd hd hne
    · have hmk : (formatUint n).data = c :: cs := by
        simp [formatUint, h0, String.mk, hd]
      have hscan := scanDigits_natToDigits n 0
      rw [hd] at hscan
      simp only [Nat.zero_mul, Nat.zero_add] at hscan
      simp only [parseUint64, hmk, hscan]
      rw [if_pos hn]

theorem string_data_append (a b : String) : (a ++ b).data = a.data ++ b.data := by
  cases a
  cases b
  rfl

theorem parseIntDigits_natToDigits_pos (n : Nat) (h0 : n ≠ 0) (hn : n < 2 ^ 63) :
    parseIntDigits false (natToDigits n) = some (n : Int) := by
  rcases hd : natToDigits n with _ | ⟨c, cs⟩
  · exact absurd hd (natToDigits_ne_nil n h0)
  · have hscan := scanDigits_natToDigits n 0
    rw [hd] at hscan
    simp only [Nat.zero_mul, Nat.zero_add] at hscan
    simp only [parseIntDigits, hscan]
    simp only [Bool.false_eq_true, if_false]
    rw [if_pos hn]

theorem parseIntDigits_natToDigits_neg (n : Nat) (h0 : n ≠ 0) (hn : n ≤ 2 ^ 63) :
    parseIntDigits true (natToDigits n) = some (-(n : Int)) := by
  rcases hd : natToDigits n with _ | ⟨c, cs⟩
  · exact absurd hd (natToDigits_ne_nil n h0)
  · have hscan := scanDigits_natToDigits n 0
    rw [hd] at hscan
    simp only [Nat.zero_mul, Nat.zero_add] at hscan
    simp only [parseIntDigits, hscan, if_true]
    rw [if_pos hn]

theorem parseInt64_formatUint (n : Nat) (hn : n < 2 ^ 63) :
    parseInt64 (formatUint n) = some (n : Int) := by
  by_cases h0 : n = 0
  · subst h0; decide
  · rcases hd : natToDigits n with _ | ⟨c, cs⟩
    · exact absurd hd (natToDigits_ne_nil n h0)
    · have hmk : (formatUint n).data = c :: cs := by
        simp [formatUint, h0, String.mk, hd]
      obtain ⟨r, hr, hcr⟩ := natToDigits_mem n c (by rw [hd]; exact List.mem_cons_self c cs)
      have hparse := parseIntDigits_natToDigits_pos n h0 hn
      rw [hd] at hparse
      simp only [parseInt64, hmk]
      rw [if_neg (by rw [hcr]; exact digitChar_ne_minus r hr),
        if_neg (by rw [hcr]; exact digitChar_ne_plus r hr)]
      exact hparse

theorem formatInt_neg_data (i : Int) (hneg : i < 0) :
    (formatInt i).data = '-' :: natToDigits i.natAbs := by
  have hm0 : i.natAbs ≠ 0 := by omega
  simp only [formatInt, if_pos hneg]
  rw [string_data_append]
  simp [formatUint, hm0, String.mk]

theorem parseInt64_formatInt (i : Int) (h1 : -(2 ^ 63) ≤ i) (h2 : i < 2 ^ 63) :
    parseInt64 (formatInt i) = some i := by
  by_cases hneg : i < 0
  · have hm0 : i.natAbs ≠ 0 := by omega
    have hm : (i.natAbs : Int) = -i := by omega
    have hle : i.natAbs ≤ 2 ^ 63 := by omega
    have hdata : (formatInt i).data = '-' :: natToDigits i.natAbs := formatInt_neg_data i hneg
    simp only [parseInt64, hdata, if_pos rfl]
    rw [parseIntDigits_natToDigits_neg i.natAbs hm0 hle, hm, neg_neg]
    simp
  · have h0 : 0 ≤ i := by omega
    have hto : ((i.toNat : Nat) : Int) = i := Int.toNat_of_nonneg h0
    have hlt : i.toNat < 2 ^ 63 := by omega
    have : formatInt i = formatUint i.toNat := by simp [formatInt, hneg]
    rw [this, parseInt64_formatUint i.toNat hlt, hto]

theorem formatUint_inj (a b : Nat) (ha : a < 2 ^ 64) (hb : b < 2 ^ 64)
    (h : formatUint a = formatUint b) : a = b := by
  have := parseUint64_formatUint a ha
  rw [h, parseUint64_formatUint b hb] at this
  exact (Option.some_inj.mp this).symm

/-! ## Lemmas about the map model -/

theorem mapLookup_mapInsert_self {α β : Type} [DecidableEq α] (m : List (α × β)) (k : α) (v : β) :
    mapLookup (mapInsert m k v) k = some v := by
  induction m with
  | nil => simp [mapInsert, mapLookup]
  | cons p rest ih =>
    obtain ⟨k1, v1⟩ := p
    by_cases h : k1 = k <;> simp [mapInsert, mapLookup, h, ih]

theorem keysOf_cons {α β : Type} (p : α × β) (m : List (α × β)) :
    keysOf (p :: m) = p.1 :: keysOf m := rfl

theorem mapLookup_mapInsert_ne {α β : Type} [DecidableEq α] (m : List (α × β)) (k k2 : α)
    (v : β) (h : k2 ≠ k) : mapLookup (mapInsert m k v) k2 = mapLookup m k2 := by
  have hk : k ≠ k2 := Ne.symm h
  induction m with
  | nil => simp [mapInsert, mapLookup, hk]
  | cons p rest ih =>
    obtain ⟨k1, v1⟩ := p
    by_cases h1 : k1 = k
    · subst h1
      simp [mapInsert, mapLookup, hk]
    · simp only [mapInsert, if_neg h1, mapLookup]
      by_cases h2 : k1 = k2 <;> simp [h2, ih]

theorem mapLookup_isSome_iff {α β : Type} [DecidableEq α] (m : List (α × β)) (k : α) :
    (mapLookup m k).isSome = true ↔ k ∈ keysOf m := by
  induction m with
  | nil => simp [mapLookup, keysOf]
  | cons p rest ih =>
    obtain ⟨k1, v1⟩ := p
    rw [keysOf_cons, List.mem_cons]
    by_cases h : k1 = k
    · subst h
      simp [mapLookup]
    · rw [mapLookup, if_neg h, ih]
      constructor
      · intro hm
        exact Or.inr hm
      · intro hm
        rcases hm with h1 | h2
        · exact absurd h1.symm h
        · exact h2

theorem keysOf_mapInsert {α β : Type} [DecidableEq α] (m : List (α × β)) (k : α) (v : β) :
    keysOf (mapInsert m k v) =
      if (mapLookup m k).isSome then keysOf m else keysOf m ++ [k] := by
  induction m with
  | nil => simp [mapInsert, mapLookup, keysOf]
  | cons p rest ih =>
    obtain ⟨k1, v1⟩ := p
    by_cases h : k1 = k
    · subst h
      simp [mapInsert, mapLookup, keysOf]
    · simp only [mapInsert, if_neg h, mapLookup]
      rw [keysOf_cons, keysOf_cons, ih]
      by_cases hs : (mapLookup rest k).isSome <;> simp [hs]

theorem countKey_mapInsert_one {α β : Type} [DecidableEq α] (m : List (α × β)) (k k2 : α)
    (v : β) (h : countKey m k2 = 1) : countKey (mapInsert m k v) k2 = 1 := by
  unfold countKey at h ⊢
  rw [keysOf_mapInsert]
  by_cases hs : (mapLookup m k).isSome
  · rw [if_pos hs]
    exact h
  · rw [if_neg hs, List.count_append]
    have hk : k ≠ k2 := by
      intro he
      subst he
      have hmem : k ∈ keysOf m := List.count_pos_iff.mp (by omega)
      exact hs ((mapLookup_isSome_iff m k).mpr hmem)
    have hc : List.count k2 [k] = 0 := by
      rw [List.count_eq_zero]
      simp [Ne.symm hk]
    rw [h, hc]

/-! ## Lemmas about the heap -/

theorem readS_writeS_self {κ ν : Type} (w : World κ ν) (r : Nat)
    (m : List (String × String)) (h : r < w.heapS.length) :
    (w.writeS r m).readS r = m := by
  unfold World.writeS World.readS
  rw [List.getElem?_set_eq_of_lt m h]
  rfl

theorem readS_writeS_ne {κ ν : Type} (w : World κ ν) (r r2 : Nat)
    (m : List (String × String)) (h : r2 ≠ r) :
    (w.writeS r m).readS r2 = w.readS r2 := by
  unfold World.writeS World.readS
  rw [List.getElem?_set_ne (Ne.symm h)]

theorem readS_allocS {κ ν : Type} (w : World κ ν) (m : List (String × String)) (r : Nat) :
    ((w.allocS m).2).readS r = if r = w.heapS.length then m else w.readS r := by
  unfold World.allocS World.readS
  by_cases h : r = w.heapS.length
  · subst h
    rw [List.getElem?_concat_length]
    simp
  · rcases Nat.lt_or_ge r w.heapS.length with hlt | hge
    · rw [List.getElem?_append_left hlt, if_neg h]
    · have hA : ([m] : List (List (String × String)))[r - w.heapS.length]? = none :=
        List.getElem?_eq_none (by simp; omega)
      have hB : w.heapS[r]? = none := List.getElem?_eq_none (by omega)
      rw [List.getElem?_append_right hge, hA, hB, if_neg h]

theorem readE_writeE_self {κ ν : Type} (w : World κ ν) (r : Nat)
    (m : List (κ × ν)) (h : r < w.heapE.length) :
    (w.writeE r m).readE r = m := by
  unfold World.writeE World.readE
  rw [List.getElem?_set_eq_of_lt m h]
  rfl

theorem readE_writeE_ne {κ ν : Type} (w : World κ ν) (r r2 : Nat)
    (m : List (κ × ν)) (h : r2 ≠ r) :
    (w.writeE r m).readE r2 = w.readE r2 := by
  unfold World.writeE World.readE
  rw [List.getElem?_set_ne (Ne.symm h)]

theorem readE_allocE {κ ν : Type} (w : World κ ν) (m : List (κ × ν)) (r : Nat) :
    ((w.allocE m).2).readE r = if r = w.heapE.length then m else w.readE r := by
  unfold World.allocE World.readE
  by_cases h : r = w.heapE.length
  · subst h
    rw [List.getElem?_concat_length]
    simp
  · rcases Nat.lt_or_ge r w.heapE.length with hlt | hge
    · rw [List.getElem?_append_left hlt, if_neg h]
    · have hA : ([m] : List (List (κ × ν)))[r - w.heapE.length]? = none :=
        List.getElem?_eq_none (by simp; omega)
      have hB : w.heapE[r]? = none := List.getElem?_eq_none (by omega)
      rw [List.getElem?_append_right hge, hA, hB, if_neg h]

theorem readS_writeE {κ ν : Type} (w : World κ ν) (r r2 : Nat) (m : List (κ × ν)) :
    (w.writeE r m).readS r2 = w.readS r2 := rfl

theorem readE_writeS {κ ν : Type} (w : World κ ν) (r r2 : Nat)
    (m : List (String × String)) : (w.writeS r m).readE r2 = w.readE r2 := rfl

theorem readS_allocE {κ ν : Type} (w : World κ ν) (r : Nat) (m : List (κ × ν)) :
    ((w.allocE m).2).readS r = w.readS r := rfl

theorem readE_allocS {κ ν : Type} (w : World κ ν) (r : Nat)
    (m : List (String × String)) : ((w.allocS m).2).readE r = w.readE r := rfl

theorem length_writeS {κ ν : Type} (w : World κ ν) (r : Nat)
    (m : List (String × String)) : (w.writeS r m).heapS.length = w.heapS.length := by
  simp [World.writeS]

theorem length_allocS {κ ν : Type} (w : World κ ν) (m : List (String × String)) :
    ((w.allocS m).2).heapS.length = w.heapS.length + 1 := by
  simp [World.allocS]

theorem length_writeE {κ ν : Type} (w : World κ ν) (r : Nat) (m : List (κ × ν)) :
    (w.writeE r m).heapE.length = w.heapE.length := by
  simp [World.writeE]

theorem length_allocE {κ ν : Type} (w : World κ ν) (m : List (κ × ν)) :
    ((w.allocE m).2).heapE.length = w.heapE.length + 1 := by
  simp [World.allocE]

theorem readS_allocS_lt {κ ν : Type} {w : World κ ν} {m : List (String × String)}
    {r : Nat} (h : r < w.heapS.length) : ((w.allocS m).2).readS r = w.readS r := by
  rw [readS_allocS, if_neg (by omega)]

theorem readS_allocS_self {κ ν : Type} (w : World κ ν) (m : List (String × String)) :
    ((w.allocS m).2).readS w.heapS.length = m := by
  rw [readS_allocS, if_pos rfl]

theorem readE_allocE_lt {κ ν : Type} {w : World κ ν} {m : List (κ × ν)}
    {r : Nat} (h : r < w.heapE.length) : ((w.allocE m).2).readE r = w.readE r := by
  rw [readE_allocE, if_neg (by omega)]

theorem readE_allocE_self {κ ν : Type} (w : World κ ν) (m : List (κ × ν)) :
    ((w.allocE m).2).readE w.heapE.length = m := by
  rw [readE_allocE, if_pos rfl]

/-- A mutator applied to one context reads and writes only that context's
own map objects, so any string-map object at another reference is
unchanged. -/
theorem applyMut_readS_ne {κ ν : Type} [DecidableEq κ] (c : FContextImpl) (w : World κ ν)
    (r : Nat) (h1 : r ≠ c.requestHeaders) (h2 : r ≠ c.responseHeaders) :
    ∀ mop : MutOp κ ν, (applyMut c w mop).readS r = w.readS r := by
  intro mop
  cases mop <;>
    simp [applyMut, FContextImpl.AddRequestHeader, FContextImpl.AddResponseHeader,
      FContextImpl.SetTimeout, FContextImpl.AddEphemeralProperty,
      readS_writeS_ne, readS_writeE, h1, h2]

/-- A mutator applied to one context leaves any ephemeral-map object at
another reference unchanged. -/
theorem applyMut_readE_ne {κ ν : Type} [DecidableEq κ] (c : FContextImpl) (w : World κ ν)
    (r : Nat) (h : r ≠ c.ephemeralProperties) :
    ∀ mop : MutOp κ ν, (applyMut c w mop).readE r = w.readE r := by
  intro mop
  cases mop <;>
    simp [applyMut, FContextImpl.AddRequestHeader, FContextImpl.AddResponseHeader,
      FContextImpl.SetTimeout, FContextImpl.AddEphemeralProperty,
      readE_writeE_ne, readE_writeS, h]

/-- A mutator applied to one context leaves the three map objects of a
context with disjoint references unchanged. -/
theorem applyMut_mapsOf_other {κ ν : Type} [DecidableEq κ] (a b : FContextImpl)
    (w : World κ ν)
    (h1 : b.requestHeaders ≠ a.requestHeaders) (h2 : b.requestHeaders ≠ a.responseHeaders)
    (h3 : b.responseHeaders ≠ a.requestHeaders) (h4 : b.responseHeaders ≠ a.responseHeaders)
    (h5 : b.ephemeralProperties ≠ a.ephemeralProperties) :
    ∀ mop : MutOp κ ν, mapsOf (applyMut a w mop) b = mapsOf w b := by
  intro mop
  unfold mapsOf
  rw [applyMut_readS_ne a w _ h1 h2 mop, applyMut_readS_ne a w _ h3 h4 mop,
    applyMut_readE_ne a w _ h5 mop]

/-! ## Lemmas about the timeout encoding -/

theorem wrap64_eq_self (x : Int) (h1 : -(2 ^ 63) ≤ x) (h2 : x < 2 ^ 63) : wrap64 x = x := by
  unfold wrap64
  have h3 : (0 : Int) ≤ x + 2 ^ 63 := by omega
  have h4 : x + 2 ^ 63 < 2 ^ 64 := by omega
  rw [Int.emod_eq_of_lt h3 h4]
  omega

theorem durationDivMs_bounds (d : Int) (h1 : -(2 ^ 63) ≤ d) (h2 : d < 2 ^ 63) :
    -(2 ^ 63) ≤ durationDivMs d ∧ durationDivMs d < 2 ^ 63 ∧
      -(2 ^ 63) ≤ 1000000 * durationDivMs d ∧ 1000000 * durationDivMs d < 2 ^ 63 := by
  have ha := Nat.div_mul_le_self d.toNat 1000000
  have hb := Nat.div_mul_le_self (-d).toNat 1000000
  unfold durationDivMs
  split <;> omega

/-- Composite behaviour of SetTimeout followed by Timeout on a context with
a live request-header map: the result is the duration truncated toward zero
to whole milliseconds, expressed in nanoseconds. -/
theorem Timeout_SetTimeout {κ ν : Type} (w : World κ ν) (c : FContextImpl)
    (h : c.requestHeaders < w.heapS.length) (d : Int)
    (h1 : -(2 ^ 63) ≤ d) (h2 : d < 2 ^ 63) :
    c.Timeout (c.SetTimeout w d) = 1000000 * durationDivMs d := by
  obtain ⟨hb1, hb2, hb3, hb4⟩ := durationDivMs_bounds d h1 h2
  unfold FContextImpl.SetTimeout FContextImpl.Timeout
  rw [readS_writeS_self _ _ _ h, mapLookup_mapInsert_self]
  simp only [Option.getD_some]
  rw [parseInt64_formatInt _ hb1 hb2]
  exact wrap64_eq_self _ hb3 hb4

/-- The header stored by SetTimeout. -/
theorem SetTimeout_header {κ ν : Type} (w : World κ ν) (c : FContextImpl)
    (h : c.requestHeaders < w.heapS.length) (d : Int) :
    mapLookup ((c.SetTimeout w d).readS c.requestHeaders) timeoutHeader
      = some (formatInt (durationDivMs d)) := by
  unfold FContextImpl.SetTimeout
  rw [readS_writeS_self _ _ _ h, mapLookup_mapInsert_self]

/-- The three map objects of a freshly constructed context: the request
headers hold exactly the three reserved bindings, and the response-header
and ephemeral-property maps are empty. -/
theorem mapsOf_NewFContext {κ ν : Type} (cid : String) (w : World κ ν) :
    mapsOf (NewFContext cid w).2 (NewFContext cid w).1 =
      (mapInsert (mapInsert (mapInsert ([] : List (String × String)) cidHeader
          (if cid = "" then w.cidGen w.cidUsed else cid))
        opIDHeader (formatUint ((w.nextOpID + 1) % 2 ^ 64))) timeoutHeader
        (formatInt (durationDivMs defaultTimeout)), [], ([] : List (κ × ν))) := by
  have hpair : ∀ (l : List (List (String × String))) (a b : List (String × String)),
      (l ++ [a] ++ [b])[l.length]? = some a := by
    intro l a b
    rw [List.getElem?_append_left (by simp)]
    exact List.getElem?_concat_length l a
  unfold mapsOf NewFContext World.allocS World.allocE World.readS World.readE
  by_cases h : cid = "" <;>
    simp [h, generateCorrelationID, getNextOpID, hpair, List.getElem?_concat_length] <;>
    constructor <;>
    · rw [List.getElem_append_right (by omega)]
      simp

/-- The references of a freshly constructed context are the next three
allocation indices. -/
theorem NewFContext_refs {κ ν : Type} (cid : String) (w : World κ ν) :
    (NewFContext cid w).1.requestHeaders = w.heapS.length ∧
      (NewFContext cid w).1.responseHeaders = w.heapS.length + 1 ∧
      (NewFContext cid w).1.ephemeralProperties = w.heapE.length ∧
      (NewFContext cid w).2.heapS.length = w.heapS.length + 2 ∧
      (NewFContext cid w).2.heapE.length = w.heapE.length + 1 ∧
      (NewFContext cid w).2.nextOpID = (w.nextOpID + 1) % 2 ^ 64 := by
  unfold NewFContext World.allocS World.allocE
  by_cases h : cid = "" <;> simp [h, generateCorrelationID, getNextOpID]

theorem mem_of_getElem_opt {α : Type} {l : List α} {i : Nat} {a : α}
    (h : l[i]? = some a) : a ∈ l := by
  obtain ⟨hlt, rfl⟩ := List.getElem?_eq_some.mp h
  exact List.getElem_mem hlt

/-- The string-map heap after NewFContext is the old heap extended with the
new request-header map and the new empty response-header map. -/
theorem NewFContext_heapS {κ ν : Type} (cid : String) (w : World κ ν) :
    ∃ m, (NewFContext cid w).2.heapS = w.heapS ++ [m, []] := by
  unfold NewFContext
  by_cases hc : cid = ""
  · refine ⟨mapInsert (mapInsert (mapInsert [] cidHeader (w.cidGen w.cidUsed)) opIDHeader
      (formatUint ((w.nextOpID + 1) % 2 ^ 64))) timeoutHeader
      (formatInt (durationDivMs defaultTimeout)), ?_⟩
    simp [hc, generateCorrelationID, getNextOpID, World.allocS, World.allocE]
  · refine ⟨mapInsert (mapInsert (mapInsert [] cidHeader cid) opIDHeader
      (formatUint ((w.nextOpID + 1) % 2 ^ 64))) timeoutHeader
      (formatInt (durationDivMs defaultTimeout)), ?_⟩
    simp [hc, generateCorrelationID, getNextOpID, World.allocS, World.allocE]

/-- The ephemeral-map heap after NewFContext is the old heap extended with
the new empty ephemeral-property map. -/
theorem NewFContext_heapE {κ ν : Type} (cid : String) (w : World κ ν) :
    (NewFContext cid w).2.heapE = w.heapE ++ [[]] := by
  unfold NewFContext
  by_cases hc : cid = "" <;>
    simp [hc, generateCorrelationID, getNextOpID, World.allocS, World.allocE]

/-- NewFContext leaves every previously allocated string-map object
unchanged. -/
theorem readS_NewFContext_old {κ ν : Type} (cid : String) (w : World κ ν) (r : Nat)
    (h : r < w.heapS.length) : (NewFContext cid w).2.readS r = w.readS r := by
  obtain ⟨m, hm⟩ := NewFContext_heapS cid w
  unfold World.readS
  rw [hm, List.getElem?_append_left h]

/-- NewFContext leaves every previously allocated ephemeral-map object
unchanged. -/
theorem readE_NewFContext_old {κ ν : Type} (cid : String) (w : World κ ν) (r : Nat)
    (h : r < w.heapE.length) : (NewFContext cid w).2.readE r = w.readE r := by
  unfold World.readE
  rw [NewFContext_heapE, List.getElem?_append_left h]

/-- The parsed op-id header only depends on the context's request map. -/
theorem vOf_congr_world {κ ν : Type} (s s2 : Sys κ ν) (c : FContextImpl)
    (h : s2.world.readS c.requestHeaders = s.world.readS c.requestHeaders) :
    vOf s2 c = vOf s c := by
  unfold vOf
  rw [h]

/-- The request-header map of a freshly constructed context. -/
theorem NewFContext_req_map {κ ν : Type} (cid : String) (w : World κ ν) :
    (NewFContext cid w).2.readS (NewFContext cid w).1.requestHeaders =
      mapInsert (mapInsert (mapInsert ([] : List (String × String)) cidHeader
          (if cid = "" then w.cidGen w.cidUsed else cid))
        opIDHeader (formatUint ((w.nextOpID + 1) % 2 ^ 64))) timeoutHeader
        (formatInt (durationDivMs defaultTimeout)) := by
  have hm := mapsOf_NewFContext cid w
  unfold mapsOf at hm
  have h1 := congrArg Prod.fst hm
  simpa using h1

/-- The response-header map of a freshly constructed context is empty. -/
theorem NewFContext_resp_map {κ ν : Type} (cid : String) (w : World κ ν) :
    (NewFContext cid w).2.readS (NewFContext cid w).1.responseHeaders = [] := by
  have hm := mapsOf_NewFContext cid w
  unfold mapsOf at hm
  have h1 := congrArg (fun t => t.2.1) hm
  simpa using h1

/-- The ephemeral-property map of a freshly constructed context is empty. -/
theorem NewFContext_eph_map {κ ν : Type} (cid : String) (w : World κ ν) :
    (NewFContext cid w).2.readE (NewFContext cid w).1.ephemeralProperties = [] := by
  have hm := mapsOf_NewFContext cid w
  unfold mapsOf at hm
  have h1 := congrArg (fun t => t.2.2) hm
  simpa using h1

/-- Shape of FContextImpl.Clone on a context with live map objects: the
clone owns three freshly allocated objects holding copies of the parent's
maps, with _opid overwritten by the freshly drawn token; the parent's map
objects are untouched. -/
theorem Clone_shape {κ ν : Type} (w : World κ ν) (c : FContextImpl)
    (hq : c.requestHeaders < w.heapS.length)
    (hr : c.responseHeaders < w.heapS.length)
    (he : c.ephemeralProperties < w.heapE.length) :
    (c.Clone w).1.requestHeaders = w.heapS.length ∧
      (c.Clone w).1.responseHeaders = w.heapS.length + 1 ∧
      (c.Clone w).1.ephemeralProperties = w.heapE.length ∧
      (c.Clone w).2.readS (c.Clone w).1.requestHeaders
        = mapInsert (w.readS c.requestHeaders) opIDHeader
            (formatUint ((w.nextOpID + 1) % 2 ^ 64)) ∧
      (c.Clone w).2.readS (c.Clone w).1.responseHeaders = w.readS c.responseHeaders ∧
      (c.Clone w).2.readE (c.Clone w).1.ephemeralProperties = w.readE c.ephemeralProperties ∧
      mapsOf (c.Clone w).2 c = mapsOf w c ∧
      (c.Clone w).2.heapS.length = w.heapS.length + 2 ∧
      (c.Clone w).2.heapE.length = w.heapE.length + 1 ∧
      (c.Clone w).2.nextOpID = (w.nextOpID + 1) % 2 ^ 64 ∧
      (∀ r, r < w.heapS.length → (c.Clone w).2.readS r = w.readS r) ∧
      (∀ r, r < w.heapE.length → (c.Clone w).2.readE r = w.readE r) := by
  set W1 : World κ ν := (w.allocS (w.readS c.requestHeaders)).2 with hW1
  set W2 : World κ ν := (W1.allocS (W1.readS c.responseHeaders)).2 with hW2
  set W3 : World κ ν := (W2.allocE (W2.readE c.ephemeralProperties)).2 with hW3
  set W4 : World κ ν := (getNextOpID W3).2 with hW4
  set final : World κ ν := W4.writeS w.heapS.length
    (mapInsert (W4.readS w.heapS.length) opIDHeader (getNextOpID W3).1) with hfinal
  have hc2 : (c.Clone w).2 = final := rfl
  have hc1q : (c.Clone w).1.requestHeaders = w.heapS.length := rfl
  have hc1r : (c.Clone w).1.responseHeaders = W1.heapS.length := rfl
  have hc1e : (c.Clone w).1.ephemeralProperties = W2.heapE.length := rfl
  have hL1 : W1.heapS.length = w.heapS.length + 1 := length_allocS w _
  have hL2 : W2.heapS.length = w.heapS.length + 2 := by
    rw [hW2, length_allocS, hL1]
  have hL2E : W2.heapE.length = w.heapE.length := rfl
  have hL3S : W3.heapS.length = w.heapS.length + 2 := by
    have e : W3.heapS.length = W2.heapS.length := rfl
    rw [e, hL2]
  have hL4S : W4.heapS.length = w.heapS.length + 2 := by
    have e : W4.heapS.length = W3.heapS.length := rfl
    rw [e, hL3S]
  have hM2 : W1.readS c.responseHeaders = w.readS c.responseHeaders := readS_allocS_lt hr
  have htok : (getNextOpID W3).1 = formatUint ((w.nextOpID + 1) % 2 ^ 64) := rfl
  have hreadW4len : W4.readS w.heapS.length = w.readS c.requestHeaders := by
    have e1 : W4.readS w.heapS.length = W2.readS w.heapS.length := rfl
    have e2 : W2.readS w.heapS.length = W1.readS w.heapS.length := by
      rw [hW2]
      exact readS_allocS_lt (by rw [hL1]; omega)
    have e3 : W1.readS w.heapS.length = w.readS c.requestHeaders := by
      rw [hW1]
      exact readS_allocS_self _ _
    rw [e1, e2, e3]
  refine ⟨hc1q, by rw [hc1r, hL1], by rw [hc1e, hL2E], ?_, ?_, ?_, ?_, ?_, ?_, rfl, ?_, ?_⟩
  · rw [hc2, hc1q, hfinal, readS_writeS_self _ _ _ (by rw [hL4S]; omega), hreadW4len, htok]
  · rw [hc2, hc1r, hL1, hfinal, readS_writeS_ne _ _ _ _ (by omega)]
    have e1 : W4.readS (w.heapS.length + 1) = W2.readS (w.heapS.length + 1) := rfl
    rw [e1, hW2, ← hL1, readS_allocS_self, hM2]
  · rw [hc2, hc1e, hL2E, hfinal]
    have e1 : (W4.writeS w.heapS.length
        (mapInsert (W4.readS w.heapS.length) opIDHeader (getNextOpID W3).1)).readE
        w.heapE.length = W3.readE w.heapE.length := rfl
    rw [e1, hW3, ← hL2E, readE_allocE_self]
    rfl
  · rw [hc2, hfinal]
    unfold mapsOf
    have eq1 : (W4.writeS w.heapS.length
        (mapInsert (W4.readS w.heapS.length) opIDHeader (getNextOpID W3).1)).readS
        c.requestHeaders = W4.readS c.requestHeaders :=
      readS_writeS_ne _ _ _ _ (by omega)
    have eq2 : (W4.writeS w.heapS.length
        (mapInsert (W4.readS w.heapS.length) opIDHeader (getNextOpID W3).1)).readS
        c.responseHeaders = W4.readS c.responseHeaders :=
      readS_writeS_ne _ _ _ _ (by omega)
    have eq3 : (W4.writeS w.heapS.length
        (mapInsert (W4.readS w.heapS.length) opIDHeader (getNextOpID W3).1)).readE
        c.ephemeralProperties = W3.readE c.ephemeralProperties := rfl
    rw [eq1, eq2, eq3]
    have f1 : W4.readS c.requestHeaders = W1.readS c.requestHeaders := by
      have e1 : W4.readS c.requestHeaders = W2.readS c.requestHeaders := rfl
      rw [e1, hW2]
      exact readS_allocS_lt (by rw [hL1]; omega)
    have f2 : W1.readS c.requestHeaders = w.readS c.requestHeaders := by
      rw [hW1]
      exact readS_allocS_lt hq
    have f3 : W4.readS c.responseHeaders = W1.readS c.responseHeaders := by
      have e1 : W4.readS c.responseHeaders = W2.readS c.responseHeaders := rfl
      rw [e1, hW2]
      exact readS_allocS_lt (by rw [hL1]; omega)
    have f4 : W3.readE c.ephemeralProperties = W2.readE c.ephemeralProperties := by
      rw [hW3]
      exact readE_allocE_lt (by rw [hL2E]; omega)
    have f5 : W2.readE c.ephemeralProperties = w.readE c.ephemeralProperties := rfl
    rw [f1, f2, f3, hM2, f4, f5]
  · rw [hc2, hfinal, length_writeS, hL4S]
  · rw [hc2, hfinal]
    have e1 : (W4.writeS w.heapS.length
        (mapInsert (W4.readS w.heapS.length) opIDHeader (getNextOpID W3).1)).heapE.length
        = W3.heapE.length := rfl
    have e2 : W3.heapE.length = W2.heapE.length + 1 := by
      rw [hW3, length_allocE]
    rw [e1, e2, hL2E]
  · intro r hlt
    rw [hc2, hfinal, readS_writeS_ne _ _ _ _ (by omega)]
    have g1 : W4.readS r = W2.readS r := rfl
    rw [g1, hW2, readS_allocS_lt (by rw [hL1]; omega), hW1]
    exact readS_allocS_lt hlt
  · intro r hlt
    rw [hc2, hfinal]
    have g1 : (W4.writeS w.heapS.length
        (mapInsert (W4.readS w.heapS.length) opIDHeader (getNextOpID W3).1)).readE r
        = W3.readE r := rfl
    rw [g1, hW3, readE_allocE_lt (by rw [hL2E]; omega)]
    rfl

/-- Lookup of _cid in the initial request-header map. -/
theorem initReq_lookup_cid (x y z : String) :
    mapLookup (mapInsert (mapInsert (mapInsert ([] : List (String × String))
      cidHeader x) opIDHeader y) timeoutHeader z) cidHeader = some x := by
  rw [mapLookup_mapInsert_ne _ _ _ _ (by decide), mapLookup_mapInsert_ne _ _ _ _ (by decide),
    mapLookup_mapInsert_self]

/-- Lookup of _opid in the initial request-header map. -/
theorem initReq_lookup_opid (x y z : String) :
    mapLookup (mapInsert (mapInsert (mapInsert ([] : List (String × String))
      cidHeader x) opIDHeader y) timeoutHeader z) opIDHeader = some y := by
  rw [mapLookup_mapInsert_ne _ _ _ _ (by decide), mapLookup_mapInsert_self]

/-- Lookup of _timeout in the initial request-header map. -/
theorem initReq_lookup_timeout (x y z : String) :
    mapLookup (mapInsert (mapInsert (mapInsert ([] : List (String × String))
      cidHeader x) opIDHeader y) timeoutHeader z) timeoutHeader = some z := by
  rw [mapLookup_mapInsert_self]

/-! ## Lemmas about ReservedMap -/

theorem initReq_explicit (x y z : String) :
    mapInsert (mapInsert (mapInsert ([] : List (String × String)) cidHeader x)
      opIDHeader y) timeoutHeader z
      = [(cidHeader, x), (opIDHeader, y), (timeoutHeader, z)] := by
  simp [mapInsert, cidHeader, opIDHeader, timeoutHeader]

theorem reservedMap_init (x y z : String) (i : Int) (hz : parseInt64 z = some i)
    (hi : 0 ≤ i) :
    ReservedMap (mapInsert (mapInsert (mapInsert ([] : List (String × String))
      cidHeader x) opIDHeader y) timeoutHeader z) := by
  rw [initReq_explicit]
  have hk : keysOf [(cidHeader, x), (opIDHeader, y), (timeoutHeader, z)]
      = [cidHeader, opIDHeader, timeoutHeader] := rfl
  refine ⟨?_, ?_, ?_, z, i, ?_, hz, hi⟩
  · unfold countKey
    rw [hk]
    decide
  · unfold countKey
    rw [hk]
    decide
  · unfold countKey
    rw [hk]
    decide
  · simp [mapLookup, cidHeader, opIDHeader, timeoutHeader]

theorem reservedMap_mapInsert_other (m : List (String × String)) (n v : String)
    (hn : n ≠ timeoutHeader) (h : ReservedMap m) : ReservedMap (mapInsert m n v) := by
  obtain ⟨h1, h2, h3, str, i, hl, hp, hi⟩ := h
  refine ⟨countKey_mapInsert_one _ _ _ _ h1, countKey_mapInsert_one _ _ _ _ h2,
    countKey_mapInsert_one _ _ _ _ h3, str, i, ?_, hp, hi⟩
  rw [mapLookup_mapInsert_ne _ _ _ _ (Ne.symm hn)]
  exact hl

theorem durationDivMs_nonneg (d : Int) (hd : 0 ≤ d) : 0 ≤ durationDivMs d := by
  unfold durationDivMs
  rw [if_pos hd]
  omega

theorem reservedMap_setTimeout (m : List (String × String)) (d : Int)
    (h0 : 0 ≤ d) (h1 : d < 2 ^ 63) (h : ReservedMap m) :
    ReservedMap (mapInsert m timeoutHeader (formatInt (durationDivMs d))) := by
  obtain ⟨c1, c2, c3, _, _, _, _, _⟩ := h
  obtain ⟨b1, b2, b3, b4⟩ := durationDivMs_bounds d (by omega) h1
  exact ⟨countKey_mapInsert_one _ _ _ _ c1, countKey_mapInsert_one _ _ _ _ c2,
    countKey_mapInsert_one _ _ _ _ c3,
    formatInt (durationDivMs d), durationDivMs d, mapLookup_mapInsert_self _ _ _,
    parseInt64_formatInt _ b1 b2, durationDivMs_nonneg d h0⟩

/-! ## Preservation of the reserved-header invariant along safe traces -/

theorem reservedInv_step {κ ν : Type} [DecidableEq κ] (s : Sys κ ν) (op : GOp κ ν)
    (hsafe : timeoutSafe op) (hinv : ReservedInv s) : ReservedInv (stepOp s op) := by
  obtain ⟨hval, hdisj, hres⟩ := hinv
  cases op with
  | newCtx cid =>
    obtain ⟨r1, r2, r3, r4, r5, r6⟩ := NewFContext_refs cid s.world
    have hstep : stepOp s (GOp.newCtx cid)
        = ⟨(NewFContext cid s.world).2, s.ctxs ++ [(NewFContext cid s.world).1]⟩ := rfl
    rw [hstep]
    refine ⟨?_, ?_, ?_⟩
    · intro c hc
      rcases List.mem_append.mp hc with h1 | h1
      · obtain ⟨v1, v2, v3⟩ := hval c h1
        exact ⟨by rw [r4]; omega, by rw [r4]; omega, by rw [r5]; omega⟩
      · have hc2 : c = (NewFContext cid s.world).1 := List.mem_singleton.mp h1
        subst hc2
        exact ⟨by rw [r4, r1]; omega, by rw [r4, r2]; omega, by rw [r5, r3]; omega⟩
    · intro c hc c2 hc2
      rcases List.mem_append.mp hc with h1 | h1 <;>
        rcases List.mem_append.mp hc2 with h2 | h2
      · exact hdisj c h1 c2 h2
      · have he2 : c2 = (NewFContext cid s.world).1 := List.mem_singleton.mp h2
        subst he2
        have := (hval c h1).1
        rw [r2]
        omega
      · have he1 : c = (NewFContext cid s.world).1 := List.mem_singleton.mp h1
        subst he1
        have := (hval c2 h2).2.1
        rw [r1]
        omega
      · have he1 : c = (NewFContext cid s.world).1 := List.mem_singleton.mp h1
        have he2 : c2 = (NewFContext cid s.world).1 := List.mem_singleton.mp h2
        subst he1
        subst he2
        rw [r1, r2]
        omega
    · intro c hc
      rcases List.mem_append.mp hc with h1 | h1
      · rw [readS_NewFContext_old cid s.world _ (hval c h1).1]
        exact hres c h1
      · have hc2 : c = (NewFContext cid s.world).1 := List.mem_singleton.mp h1
        subst hc2
        rw [NewFContext_req_map]
        exact reservedMap_init _ _ _ 5000 (by decide) (by decide)
  | cloneCtx i =>
    rcases hgi : s.ctxs[i]? with _ | c
    · have hstep : stepOp s (GOp.cloneCtx i) = s := by simp [stepOp, hgi]
      rw [hstep]
      exact ⟨hval, hdisj, hres⟩
    · have hcmem : c ∈ s.ctxs := mem_of_getElem_opt hgi
      obtain ⟨hq, hr, he⟩ := hval c hcmem
      obtain ⟨s1, s2c, s3, s4, s5, s6, s7, s8, s9, s10, s11, s12⟩ :=
        Clone_shape s.world c hq hr he
      have hstep : stepOp s (GOp.cloneCtx i)
          = ⟨(c.Clone s.world).2, s.ctxs ++ [(c.Clone s.world).1]⟩ := by
        simp [stepOp, hgi]
      rw [hstep]
      refine ⟨?_, ?_, ?_⟩
      · intro c2 hc2
        rcases List.mem_append.mp hc2 with h1 | h1
        · obtain ⟨v1, v2, v3⟩ := hval c2 h1
          exact ⟨by rw [s8]; omega, by rw [s8]; omega, by rw [s9]; omega⟩
        · have hc3 : c2 = (c.Clone s.world).1 := List.mem_singleton.mp h1
          subst hc3
          exact ⟨by rw [s8, s1]; omega, by rw [s8, s2c]; omega, by rw [s9, s3]; omega⟩
      · intro c2 hc2 c3 hc3
        rcases List.mem_append.mp hc2 with h1 | h1 <;>
          rcases List.mem_append.mp hc3 with h2 | h2
        · exact hdisj c2 h1 c3 h2
        · have he2 : c3 = (c.Clone s.world).1 := List.mem_singleton.mp h2
          subst he2
          have := (hval c2 h1).1
          rw [s2c]
          omega
        · have he1 : c2 = (c.Clone s.world).1 := List.mem_singleton.mp h1
          subst he1
          have := (hval c3 h2).2.1
          rw [s1]
          omega
        · have he1 : c2 = (c.Clone s.world).1 := List.mem_singleton.mp h1
          have he2 : c3 = (c.Clone s.world).1 := List.mem_singleton.mp h2
          subst he1
          subst he2
          rw [s1, s2c]
          omega
      · intro c2 hc2
        rcases List.mem_append.mp hc2 with h1 | h1
        · rw [s11 _ (hval c2 h1).1]
          exact hres c2 h1
        · have hc3 : c2 = (c.Clone s.world).1 := List.mem_singleton.mp h1
          subst hc3
          rw [s4]
          exact reservedMap_mapInsert_other _ _ _ (by decide) (hres c hcmem)
  | addReqHeader i n v =>
    rcases hgi : s.ctxs[i]? with _ | c
    · have hstep : stepOp s (GOp.addReqHeader i n v) = s := by simp [stepOp, hgi]
      rw [hstep]
      exact ⟨hval, hdisj, hres⟩
    · have hcmem : c ∈ s.ctxs := mem_of_getElem_opt hgi
      have hq := (hval c hcmem).1
      have hstep : stepOp s (GOp.addReqHeader i n v)
          = ⟨c.AddRequestHeader s.world n v, s.ctxs⟩ := by
        simp [stepOp, hgi]
      rw [hstep]
      have hlenS : (c.AddRequestHeader s.world n v).heapS.length
          = s.world.heapS.length := length_writeS _ _ _
      have hlenE : (c.AddRequestHeader s.world n v).heapE.length
          = s.world.heapE.length := rfl
      refine ⟨?_, hdisj, ?_⟩
      · intro c2 hc2
        obtain ⟨v1, v2, v3⟩ := hval c2 hc2
        exact ⟨by rw [hlenS]; omega, by rw [hlenS]; omega, by rw [hlenE]; omega⟩
      · intro c2 hc2
        by_cases hrq : c2.requestHeaders = c.requestHeaders
        · have hread : (c.AddRequestHeader s.world n v).readS c2.requestHeaders
              = mapInsert (s.world.readS c.requestHeaders) n v := by
            rw [hrq]
            exact readS_writeS_self _ _ _ hq
          rw [hread]
          exact reservedMap_mapInsert_other _ _ _ hsafe (hres c hcmem)
        · have hread : (c.AddRequestHeader s.world n v).readS c2.requestHeaders
              = s.world.readS c2.requestHeaders := readS_writeS_ne _ _ _ _ hrq
          rw [hread]
          exact hres c2 hc2
  | addRespHeader i n v =>
    rcases hgi : s.ctxs[i]? with _ | c
    · have hstep : stepOp s (GOp.addRespHeader i n v) = s := by simp [stepOp, hgi]
      rw [hstep]
      exact ⟨hval, hdisj, hres⟩
    · have hcmem : c ∈ s.ctxs := mem_of_getElem_opt hgi
      have hstep : stepOp s (GOp.addRespHeader i n v)
          = ⟨c.AddResponseHeader s.world n v, s.ctxs⟩ := by
        simp [stepOp, hgi]
      rw [hstep]
      have hlenS : (c.AddResponseHeader s.world n v).heapS.length
          = s.world.heapS.length := length_writeS _ _ _
      have hlenE : (c.AddResponseHeader s.world n v).heapE.length
          = s.world.heapE.length := rfl
      refine ⟨?_, hdisj, ?_⟩
      · intro c2 hc2
        obtain ⟨v1, v2, v3⟩ := hval c2 hc2
        exact ⟨by rw [hlenS]; omega, by rw [hlenS]; omega, by rw [hlenE]; omega⟩
      · intro c2 hc2
        have hread : (c.AddResponseHeader s.world n v).readS c2.requestHeaders
            = s.world.readS c2.requestHeaders :=
          readS_writeS_ne _ _ _ _ (hdisj c2 hc2 c hcmem)
        rw [hread]
        exact hres c2 hc2
  | setTimeoutOp i d =>
    rcases hgi : s.ctxs[i]? with _ | c
    · have hstep : stepOp s (GOp.setTimeoutOp i d) = s := by simp [stepOp, hgi]
      rw [hstep]
      exact ⟨hval, hdisj, hres⟩
    · have hcmem : c ∈ s.ctxs := mem_of_getElem_opt hgi
      have hq := (hval c hcmem).1
      have hstep : stepOp s (GOp.setTimeoutOp i d)
          = ⟨c.SetTimeout s.world d, s.ctxs⟩ := by
        simp [stepOp, hgi]
      rw [hstep]
      have hlenS : (c.SetTimeout s.world d).heapS.length
          = s.world.heapS.length := length_writeS _ _ _
      have hlenE : (c.SetTimeout s.world d).heapE.length
          = s.world.heapE.length := rfl
      refine ⟨?_, hdisj, ?_⟩
      · intro c2 hc2
        obtain ⟨v1, v2, v3⟩ := hval c2 hc2
        exact ⟨by rw [hlenS]; omega, by rw [hlenS]; omega, by rw [hlenE]; omega⟩
      · intro c2 hc2
        by_cases hrq : c2.requestHeaders = c.requestHeaders
        · have hread : (c.SetTimeout s.world d).readS c2.requestHeaders
              = mapInsert (s.world.readS c.requestHeaders) timeoutHeader
                (formatInt (durationDivMs d)) := by
            rw [hrq]
            exact readS_writeS_self _ _ _ hq
          rw [hread]
          exact reservedMap_setTimeout _ _ hsafe.1 hsafe.2 (hres c hcmem)
        · have hread : (c.SetTimeout s.world d).readS c2.requestHeaders
              = s.world.readS c2.requestHeaders := readS_writeS_ne _ _ _ _ hrq
          rw [hread]
          exact hres c2 hc2
  | addEphProp i k v =>
    rcases hgi : s.ctxs[i]? with _ | c
    · have hstep : stepOp s (GOp.addEphProp i k v) = s := by simp [stepOp, hgi]
      rw [hstep]
      exact ⟨hval, hdisj, hres⟩
    · have hstep : stepOp s (GOp.addEphProp i k v)
          = ⟨c.AddEphemeralProperty s.world k v, s.ctxs⟩ := by
        simp [stepOp, hgi]
      rw [hstep]
      have hlenE : (c.AddEphemeralProperty s.world k v).heapE.length
          = s.world.heapE.length := length_writeE _ _ _
      refine ⟨?_, hdisj, ?_⟩
      · intro c2 hc2
        obtain ⟨v1, v2, v3⟩ := hval c2 hc2
        exact ⟨v1, v2, by rw [hlenE]; omega⟩
      · intro c2 hc2
        exact hres c2 hc2
  | reqHeadersSnap i =>
    rcases hgi : s.ctxs[i]? with _ | c
    · have hstep : stepOp s (GOp.reqHeadersSnap i) = s := by simp [stepOp, hgi]
      rw [hstep]
      exact ⟨hval, hdisj, hres⟩
    · have hstep : stepOp s (GOp.reqHeadersSnap i)
          = ⟨(c.RequestHeaders s.world).2, s.ctxs⟩ := by
        simp [stepOp, hgi]
      rw [hstep]
      have hlenS : (c.RequestHeaders s.world).2.heapS.length
          = s.world.heapS.length + 1 := length_allocS _ _
      refine ⟨?_, hdisj, ?_⟩
      · intro c2 hc2
        obtain ⟨v1, v2, v3⟩ := hval c2 hc2
        exact ⟨by rw [hlenS]; omega, by rw [hlenS]; omega, v3⟩
      · intro c2 hc2
        rw [show (c.RequestHeaders s.world).2.readS c2.requestHeaders
            = s.world.readS c2.requestHeaders from readS_allocS_lt (hval c2 hc2).1]
        exact hres c2 hc2
  | respHeadersSnap i =>
    rcases hgi : s.ctxs[i]? with _ | c
    · have hstep : stepOp s (GOp.respHeadersSnap i) = s := by simp [stepOp, hgi]
      rw [hstep]
      exact ⟨hval, hdisj, hres⟩
    · have hstep : stepOp s (GOp.respHeadersSnap i)
          = ⟨(c.ResponseHeaders s.world).2, s.ctxs⟩ := by
        simp [stepOp, hgi]
      rw [hstep]
      have hlenS : (c.ResponseHeaders s.world).2.heapS.length
          = s.world.heapS.length + 1 := length_allocS _ _
      refine ⟨?_, hdisj, ?_⟩
      · intro c2 hc2
        obtain ⟨v1, v2, v3⟩ := hval c2 hc2
        exact ⟨by rw [hlenS]; omega, by rw [hlenS]; omega, v3⟩
      · intro c2 hc2
        rw [show (c.ResponseHeaders s.world).2.readS c2.requestHeaders
            = s.world.readS c2.requestHeaders from readS_allocS_lt (hval c2 hc2).1]
        exact hres c2 hc2
  | ephPropsSnap i =>
    rcases hgi : s.ctxs[i]? with _ | c
    · have hstep : stepOp s (GOp.ephPropsSnap i) = s := by simp [stepOp, hgi]
      rw [hstep]
      exact ⟨hval, hdisj, hres⟩
    · have hstep : stepOp s (GOp.ephPropsSnap i)
          = ⟨(c.EphemeralProperties s.world).2, s.ctxs⟩ := by
        simp [stepOp, hgi]
      rw [hstep]
      have hlenE : (c.EphemeralProperties s.world).2.heapE.length
          = s.world.heapE.length + 1 := length_allocE _ _
      refine ⟨?_, hdisj, ?_⟩
      · intro c2 hc2
        obtain ⟨v1, v2, v3⟩ := hval c2 hc2
        exact ⟨v1, v2, by rw [hlenE]; omega⟩
      · intro c2 hc2
        exact hres c2 hc2

theorem reservedInv_run {κ ν : Type} [DecidableEq κ] :
    ∀ (ops : List (GOp κ ν)) (s : Sys κ ν), (∀ op ∈ ops, timeoutSafe op) →
      ReservedInv s → ReservedInv (runOps s ops) := by
  intro ops
  induction ops with
  | nil =>
    intro s _ hinv
    exact hinv
  | cons op rest ih =>
    intro s hall hinv
    exact ih (stepOp s op) (fun o ho => hall o (List.mem_cons_of_mem op ho))
      (reservedInv_step s op (hall op (List.mem_cons_self op rest)) hinv)

/-! ## Preservation of the op-id invariant along creation traces -/

theorem opidInv_step {κ ν : Type} [DecidableEq κ] (s : Sys κ ν) (op : GOp κ ν)
    (hcr : isCreation op = true) (hinv : OpidInv s)
    (hfr : s.world.nextOpID + 1 < 2 ^ 64) :
    OpidInv (stepOp s op) ∧ (stepOp s op).world.nextOpID ≤ s.world.nextOpID + 1 := by
  obtain ⟨hval, hex, hpw⟩ := hinv
  have hmod : (s.world.nextOpID + 1) % 2 ^ 64 = s.world.nextOpID + 1 := Nat.mod_eq_of_lt hfr
  cases op with
  | addReqHeader i n v => simp [isCreation] at hcr
  | addRespHeader i n v => simp [isCreation] at hcr
  | setTimeoutOp i d => simp [isCreation] at hcr
  | addEphProp i k v => simp [isCreation] at hcr
  | reqHeadersSnap i => simp [isCreation] at hcr
  | respHeadersSnap i => simp [isCreation] at hcr
  | ephPropsSnap i => simp [isCreation] at hcr
  | newCtx cid =>
    obtain ⟨r1, r2, r3, r4, r5, r6⟩ := NewFContext_refs cid s.world
    have hstep : stepOp s (GOp.newCtx cid)
        = ⟨(NewFContext cid s.world).2, s.ctxs ++ [(NewFContext cid s.world).1]⟩ := rfl
    rw [hstep]
    have hcount : (NewFContext cid s.world).2.nextOpID = s.world.nextOpID + 1 := by
      rw [r6, hmod]
    have hold : ∀ c ∈ s.ctxs,
        vOf ⟨(NewFContext cid s.world).2, s.ctxs ++ [(NewFContext cid s.world).1]⟩ c
          = vOf s c := by
      intro c hc
      apply vOf_congr_world
      exact readS_NewFContext_old cid s.world _ (hval c hc).1
    have hnewv : vOf ⟨(NewFContext cid s.world).2, s.ctxs ++ [(NewFContext cid s.world).1]⟩
        (NewFContext cid s.world).1 = some (s.world.nextOpID + 1) := by
      unfold vOf
      show (mapLookup ((NewFContext cid s.world).2.readS
        (NewFContext cid s.world).1.requestHeaders) opIDHeader).bind parseUint64 = _
      rw [NewFContext_req_map, initReq_lookup_opid, hmod]
      show parseUint64 (formatUint (s.world.nextOpID + 1)) = some (s.world.nextOpID + 1)
      exact parseUint64_formatUint _ (by omega)
    refine ⟨⟨?_, ?_, ?_⟩, by rw [hcount]⟩
    · intro c hc
      rcases List.mem_append.mp hc with hcin | hcnew
      · obtain ⟨v1, v2, v3⟩ := hval c hcin
        exact ⟨by rw [r4]; omega, by rw [r4]; omega, by rw [r5]; omega⟩
      · have hc2 : c = (NewFContext cid s.world).1 := List.mem_singleton.mp hcnew
        subst hc2
        exact ⟨by rw [r4, r1]; omega, by rw [r4, r2]; omega, by rw [r5, r3]; omega⟩
    · intro c hc
      rcases List.mem_append.mp hc with hcin | hcnew
      · obtain ⟨v, hv, h1, h2⟩ := hex c hcin
        refine ⟨v, ?_, h1, by rw [hcount]; omega⟩
        rw [hold c hcin]
        exact hv
      · have hc2 : c = (NewFContext cid s.world).1 := List.mem_singleton.mp hcnew
        subst hc2
        exact ⟨s.world.nextOpID + 1, hnewv, by omega, by rw [hcount]⟩
    · rw [List.pairwise_append]
      refine ⟨?_, by simp, ?_⟩
      · refine List.Pairwise.imp_of_mem ?_ hpw
        intro a b ha hb hrel va vb hva hvb
        rw [hold a ha] at hva
        rw [hold b hb] at hvb
        exact hrel va vb hva hvb
      · intro a ha b hb va vb hva hvb
        have hb2 : b = (NewFContext cid s.world).1 := List.mem_singleton.mp hb
        subst hb2
        rw [hold a ha] at hva
        obtain ⟨v, hv, h1, h2⟩ := hex a ha
        rw [hv] at hva
        have hva2 : va = v := (Option.some_inj.mp hva).symm
        rw [hnewv] at hvb
        have hvb2 : vb = s.world.nextOpID + 1 := (Option.some_inj.mp hvb).symm
        omega
  | cloneCtx i =>
    rcases hgi : s.ctxs[i]? with _ | c
    · have hstep : stepOp s (GOp.cloneCtx i) = s := by simp [stepOp, hgi]
      rw [hstep]
      exact ⟨⟨hval, hex, hpw⟩, by omega⟩
    · have hcmem : c ∈ s.ctxs := mem_of_getElem_opt hgi
      obtain ⟨hq, hr, he⟩ := hval c hcmem
      obtain ⟨s1, s2c, s3, s4, s5, s6, s7, s8, s9, s10, s11, s12⟩ :=
        Clone_shape s.world c hq hr he
      have hstep : stepOp s (GOp.cloneCtx i)
          = ⟨(c.Clone s.world).2, s.ctxs ++ [(c.Clone s.world).1]⟩ := by
        simp [stepOp, hgi]
      rw [hstep]
      have hcount : (c.Clone s.world).2.nextOpID = s.world.nextOpID + 1 := by
        rw [s10, hmod]
      have hold : ∀ c2 ∈ s.ctxs,
          vOf ⟨(c.Clone s.world).2, s.ctxs ++ [(c.Clone s.world).1]⟩ c2 = vOf s c2 := by
        intro c2 hc2
        apply vOf_congr_world
        exact s11 _ (hval c2 hc2).1
      have hnewv : vOf ⟨(c.Clone s.world).2, s.ctxs ++ [(c.Clone s.world).1]⟩
          (c.Clone s.world).1 = some (s.world.nextOpID + 1) := by
        unfold vOf
        show (mapLookup ((c.Clone s.world).2.readS
          (c.Clone s.world).1.requestHeaders) opIDHeader).bind parseUint64 = _
        rw [s4, mapLookup_mapInsert_self, hmod]
        show parseUint64 (formatUint (s.world.nextOpID + 1)) = some (s.world.nextOpID + 1)
        exact parseUint64_formatUint _ (by omega)
      refine ⟨⟨?_, ?_, ?_⟩, by rw [hcount]⟩
      · intro c2 hc2
        rcases List.mem_append.mp hc2 with hcin | hcnew
        · obtain ⟨v1, v2, v3⟩ := hval c2 hcin
          exact ⟨by rw [s8]; omega, by rw [s8]; omega, by rw [s9]; omega⟩
        · have hc3 : c2 = (c.Clone s.world).1 := List.mem_singleton.mp hcnew
          subst hc3
          exact ⟨by rw [s8, s1]; omega, by rw [s8, s2c]; omega, by rw [s9, s3]; omega⟩
      · intro c2 hc2
        rcases List.mem_append.mp hc2 with hcin | hcnew
        · obtain ⟨v, hv, h1, h2⟩ := hex c2 hcin
          refine ⟨v, ?_, h1, by rw [hcount]; omega⟩
          rw [hold c2 hcin]
          exact hv
        · have hc3 : c2 = (c.Clone s.world).1 := List.mem_singleton.mp hcnew
          subst hc3
          exact ⟨s.world.nextOpID + 1, hnewv, by omega, by rw [hcount]⟩
      · rw [List.pairwise_append]
        refine ⟨?_, by simp, ?_⟩
        · refine List.Pairwise.imp_of_mem ?_ hpw
          intro a b ha hb hrel va vb hva hvb
          rw [hold a ha] at hva
          rw [hold b hb] at hvb
          exact hrel va vb hva hvb
        · intro a ha b hb va vb hva hvb
          have hb2 : b = (c.Clone s.world).1 := List.mem_singleton.mp hb
          subst hb2
          rw [hold a ha] at hva
          obtain ⟨v, hv, h1, h2⟩ := hex a ha
          rw [hv] at hva
          have hva2 : va = v := (Option.some_inj.mp hva).symm
          rw [hnewv] at hvb
          have hvb2 : vb = s.world.nextOpID + 1 := (Option.some_inj.mp hvb).symm
          omega

theorem opidInv_run {κ ν : Type} [DecidableEq κ] :
    ∀ (ops : List (GOp κ ν)) (s : Sys κ ν),
      (∀ op ∈ ops, isCreation op = true) → OpidInv s →
      s.world.nextOpID + ops.length < 2 ^ 64 →
      OpidInv (runOps s ops) := by
  intro ops
  induction ops with
  | nil =>
    intro s _ hinv _
    exact hinv
  | cons op rest ih =>
    intro s hall hinv hlen
    have hop := hall op (List.mem_cons_self op rest)
    have hfr : s.world.nextOpID + 1 < 2 ^ 64 := by
      simp only [List.length_cons] at hlen
      omega
    obtain ⟨hinv2, hbound⟩ := opidInv_step s op hop hinv hfr
    have hlen2 : (stepOp s op).world.nextOpID + rest.length < 2 ^ 64 := by
      simp only [List.length_cons] at hlen
      omega
    exact ih (stepOp s op) (fun o ho => hall o (List.mem_cons_of_mem op ho)) hinv2 hlen2

/-- The counter after n draws, starting from a state with an in-range
counter. -/
theorem drawMany_nextOpID {κ ν : Type} (w : World κ ν) (hw : w.nextOpID < 2 ^ 64) :
    ∀ n, (drawMany w n).nextOpID = (w.nextOpID + n) % 2 ^ 64 := by
  intro n
  induction n with
  | zero =>
    show w.nextOpID = (w.nextOpID + 0) % 2 ^ 64
    rw [Nat.add_zero, Nat.mod_eq_of_lt hw]
  | succ n ih =>
    show ((drawMany w n).nextOpID + 1) % 2 ^ 64 = (w.nextOpID + (n + 1)) % 2 ^ 64
    rw [ih]
    omega

/-! ## The claims -/

/-- Claim C9: for every context and every ephemeral key-value pair,
AddEphemeralProperty writes only this context's ephemeral-property map
object; the request-header map and the response-header map are untouched,
so no entry derived from the property appears in either. -/
theorem addEphemeralProperty_leaves_headers {κ ν : Type} [DecidableEq κ]
    (w : World κ ν) (c : FContextImpl) (k : κ) (v : ν) :
    (c.AddEphemeralProperty w k v).readS c.requestHeaders = w.readS c.requestHeaders ∧
      (c.AddEphemeralProperty w k v).readS c.responseHeaders = w.readS c.responseHeaders :=
  ⟨rfl, rfl⟩

/-- Claim C4: whenever the _timeout request header is missing or holds a
string that strconv.ParseInt rejects, Timeout returns the 5000 ms default
(5000000000 ns); Timeout is a total function into durations, so no error or
failure reaches the caller. -/
theorem timeout_failsoft {κ ν : Type} (w : World κ ν) (c : FContextImpl)
    (h : mapLookup (w.readS c.requestHeaders) timeoutHeader = none ∨
      ∃ str, mapLookup (w.readS c.requestHeaders) timeoutHeader = some str ∧
        parseInt64 str = none) :
    c.Timeout w = defaultTimeout := by
  unfold FContextImpl.Timeout
  rcases h with h | ⟨str, hs, hp⟩
  · rw [h]
    rfl
  · rw [hs]
    simp only [Option.getD_some]
    rw [hp]

/-- Witness for claim C4: a context whose _timeout header holds the
non-numeric string "banana" yields the default. -/
theorem timeout_failsoft_witness :
    parseInt64 "banana" = none ∧
      (FContextImpl.mk 0 0 0).Timeout
        (World.mk [[(timeoutHeader, "banana")]] ([] : List (List (String × String)))
          0 (fun _ => "x") 0) = defaultTimeout :=
  ⟨by decide, timeout_failsoft _ _ (Or.inr ⟨"banana", by decide, by decide⟩)⟩

/-- Claim C6: SetTimeout with 7500 ms (7500000000 ns) followed by Timeout on
the same context returns exactly 7500 ms, and Timeout on a freshly
constructed context with no SetTimeout call returns exactly 5000 ms. -/
theorem timeout_roundtrip_values {κ ν : Type} (w : World κ ν) (c : FContextImpl)
    (h : c.requestHeaders < w.heapS.length) (cid : String) :
    c.Timeout (c.SetTimeout w 7500000000) = 7500000000 ∧
      (NewFContext cid w).1.Timeout (NewFContext cid w).2 = 5000000000 := by
  constructor
  · rw [Timeout_SetTimeout w c h 7500000000 (by norm_num) (by norm_num)]
    decide
  · unfold FContextImpl.Timeout
    rw [NewFContext_req_map, initReq_lookup_timeout]
    decide

/-- Witness for claim C6 on a freshly constructed context. -/
theorem timeout_roundtrip_witness :
    ((NewFContext "abc" (initWorld String String (fun _ => "g"))).1.requestHeaders
        < (NewFContext "abc" (initWorld String String (fun _ => "g"))).2.heapS.length) ∧
      ((NewFContext "abc" (initWorld String String (fun _ => "g"))).1.Timeout
          ((NewFContext "abc" (initWorld String String (fun _ => "g"))).1.SetTimeout
            (NewFContext "abc" (initWorld String String (fun _ => "g"))).2 7500000000)
        = 7500000000 ∧
      (NewFContext "xyz" (NewFContext "abc" (initWorld String String (fun _ => "g"))).2).1.Timeout
          (NewFContext "xyz" (NewFContext "abc" (initWorld String String (fun _ => "g"))).2).2
        = 5000000000) :=
  ⟨by decide, timeout_roundtrip_values _ _ (by decide) "xyz"⟩

/-- Claim C5: getOpID fails (with the malformed-context error) exactly when
the _opid request header is absent or its value is rejected by
strconv.ParseUint, and on a parseable header it returns the parsed value
without error. -/
theorem getOpID_error_iff {κ ν : Type} (w : World κ ν) (c : FContextImpl) :
    ((∃ e, getOpID c w = Except.error e) ↔
      (c.RequestHeader w opIDHeader = none ∨
        ∃ str, c.RequestHeader w opIDHeader = some str ∧ parseUint64 str = none)) ∧
      (∀ str n, c.RequestHeader w opIDHeader = some str → parseUint64 str = some n →
        getOpID c w = Except.ok n) := by
  constructor
  · constructor
    · intro he
      obtain ⟨e, he⟩ := he
      rcases hh : c.RequestHeader w opIDHeader with _ | str
      · exact Or.inl rfl
      · rcases hp : parseUint64 str with _ | n
        · exact Or.inr ⟨str, rfl, hp⟩
        · unfold getOpID at he
          simp [hh, hp] at he
    · intro h
      rcases h with hnone | ⟨str, hs, hp⟩
      · exact ⟨"FContext does not have the required " ++ opIDHeader ++ " request header",
          by unfold getOpID; rw [hnone]⟩
      · exact ⟨"FContext has an opid that is not a non-negative integer: " ++ str,
          by unfold getOpID; simp [hs, hp]⟩
  · intro str n hs hp
    unfold getOpID
    simp [hs, hp]

/-- Witness for claim C5: a context without _opid errors, a context whose
_opid is "42" yields 42. -/
theorem getOpID_witness :
    (∃ e, getOpID (FContextImpl.mk 0 0 0)
        (World.mk [[]] ([] : List (List (String × String))) 0 (fun _ => "x") 0)
      = Except.error e) ∧
      getOpID (FContextImpl.mk 0 0 0)
        (World.mk [[(opIDHeader, "42")]] ([] : List (List (String × String)))
          0 (fun _ => "x") 0)
      = Except.ok 42 :=
  ⟨(getOpID_error_iff _ _).1.mpr (Or.inl (by decide)),
    (getOpID_error_iff _ _).2 "42" 42 (by decide) (by decide)⟩

/-- Claim C7: construction with the empty correlation id stores the freshly
generated identifier (non-empty whenever the generator never returns the
empty string, which holds for the default nuid generator), and construction
with any non-empty string stores exactly that string. -/
theorem correlationID_default_or_exact {κ ν : Type} (w : World κ ν) (s : String)
    (hg : ∀ n, w.cidGen n ≠ "") :
    (s = "" → (NewFContext s w).1.CorrelationID (NewFContext s w).2 = w.cidGen w.cidUsed ∧
      (NewFContext s w).1.CorrelationID (NewFContext s w).2 ≠ "") ∧
      (s ≠ "" → (NewFContext s w).1.CorrelationID (NewFContext s w).2 = s) := by
  have hreq := NewFContext_req_map s w
  constructor
  · intro hs
    rw [if_pos hs] at hreq
    unfold FContextImpl.CorrelationID
    rw [hreq, initReq_lookup_cid]
    exact ⟨rfl, hg w.cidUsed⟩
  · intro hs
    rw [if_neg hs] at hreq
    unfold FContextImpl.CorrelationID
    rw [hreq, initReq_lookup_cid]
    rfl

/-- Witness for claim C7 with a generator producing "generated-id". -/
theorem correlationID_witness :
    ((NewFContext "" (initWorld String String (fun _ => "generated-id"))).1.CorrelationID
        (NewFContext "" (initWorld String String (fun _ => "generated-id"))).2
      = "generated-id" ∧
      (NewFContext "" (initWorld String String (fun _ => "generated-id"))).1.CorrelationID
        (NewFContext "" (initWorld String String (fun _ => "generated-id"))).2 ≠ "") ∧
      (NewFContext "abc" (initWorld String String (fun _ => "generated-id"))).1.CorrelationID
        (NewFContext "abc" (initWorld String String (fun _ => "generated-id"))).2 = "abc" :=
  ⟨(correlationID_default_or_exact _ ""
      (fun n => by show "generated-id" ≠ ""; decide)).1 rfl,
    (correlationID_default_or_exact _ "abc"
      (fun n => by show "generated-id" ≠ ""; decide)).2 (by decide)⟩

/-- Claim C10 (amended): SetTimeout followed by Timeout returns the duration
truncated toward zero to a whole number of milliseconds, for every int64
duration including negative ones and ones that are not whole milliseconds;
a negative duration of at least one millisecond in magnitude is stored as a
minus-sign-led integer string that parses successfully, so Timeout returns
that negative value rather than the 5000 ms default.  (As stated the claim
fails for negative durations smaller than one millisecond, which are stored
as "0": see the counterexample.) -/
theorem setTimeout_truncates {κ ν : Type} (w : World κ ν) (c : FContextImpl)
    (h : c.requestHeaders < w.heapS.length) (d : Int)
    (h1 : -(2 ^ 63) ≤ d) (h2 : d < 2 ^ 63) :
    c.Timeout (c.SetTimeout w d) =
      (if 0 ≤ d then ((d.toNat / 1000000 : Nat) : Int) * 1000000
        else -((((-d).toNat / 1000000 : Nat) : Int) * 1000000)) ∧
      (d ≤ -1000000 →
        ∃ m : Int, m < 0 ∧
          mapLookup ((c.SetTimeout w d).readS c.requestHeaders) timeoutHeader
            = some (formatInt m) ∧
          (formatInt m).data.head? = some '-' ∧
          parseInt64 (formatInt m) = some m ∧
          c.Timeout (c.SetTimeout w d) = 1000000 * m ∧
          c.Timeout (c.SetTimeout w d) < 0 ∧
          c.Timeout (c.SetTimeout w d) ≠ defaultTimeout) := by
  obtain ⟨hb1, hb2, hb3, hb4⟩ := durationDivMs_bounds d h1 h2
  have htime := Timeout_SetTimeout w c h d h1 h2
  constructor
  · rw [htime]
    unfold durationDivMs
    split <;> ring
  · intro hd
    refine ⟨durationDivMs d, ?_, SetTimeout_header w c h d, ?_, ?_, ?_, ?_, ?_⟩
    · have : 1 ≤ (-d).toNat / 1000000 := by
        have : 1000000 ≤ (-d).toNat := by omega
        omega
      unfold durationDivMs
      rw [if_neg (by omega)]
      omega
    · have hneg : durationDivMs d < 0 := by
        have : 1 ≤ (-d).toNat / 1000000 := by
          have : 1000000 ≤ (-d).toNat := by omega
          omega
        unfold durationDivMs
        rw [if_neg (by omega)]
        omega
      rw [formatInt_neg_data _ hneg]
      rfl
    · exact parseInt64_formatInt _ hb1 hb2
    · exact htime
    · rw [htime]
      have : 1 ≤ (-d).toNat / 1000000 := by
        have : 1000000 ≤ (-d).toNat := by omega
        omega
      unfold durationDivMs
      rw [if_neg (by omega)]
      omega
    · rw [htime]
      have : 1 ≤ (-d).toNat / 1000000 := by
        have : 1000000 ≤ (-d).toNat := by omega
        omega
      unfold durationDivMs defaultTimeout
      rw [if_neg (by omega)]
      omega

/-- Witness for claim C10 (amended) at d = -2500000001 ns: Timeout returns
-2500 ms (-2500000000 ns), truncation toward zero. -/
theorem setTimeout_truncates_witness :
    ((NewFContext "abc" (initWorld String String (fun _ => "g"))).1.requestHeaders
        < (NewFContext "abc" (initWorld String String (fun _ => "g"))).2.heapS.length) ∧
      (NewFContext "abc" (initWorld String String (fun _ => "g"))).1.Timeout
        ((NewFContext "abc" (initWorld String String (fun _ => "g"))).1.SetTimeout
          (NewFContext "abc" (initWorld String String (fun _ => "g"))).2 (-2500000001))
      = (if (0 : Int) ≤ -2500000001
          then (((Int.toNat (-2500000001)) / 1000000 : Nat) : Int) * 1000000
          else -((((Int.toNat (-(-2500000001))) / 1000000 : Nat) : Int) * 1000000)) :=
  ⟨by decide,
    (setTimeout_truncates _ _ (by decide) (-2500000001) (by decide) (by decide)).1⟩

/-- Counterexample to claim C10 as stated: the negative duration -1 ns is
stored as the string "0" (not a negative integer string), and Timeout then
returns 0 (not the negative duration). -/
theorem small_negative_timeout_stored_as_zero :
    mapLookup (((NewFContext "x" (initWorld String String (fun _ => "g"))).1.SetTimeout
          (NewFContext "x" (initWorld String String (fun _ => "g"))).2 (-1)).readS
        (NewFContext "x" (initWorld String String (fun _ => "g"))).1.requestHeaders)
      timeoutHeader = some "0" ∧
      "0".data.head? = some '0' ∧
      (NewFContext "x" (initWorld String String (fun _ => "g"))).1.Timeout
        ((NewFContext "x" (initWorld String String (fun _ => "g"))).1.SetTimeout
          (NewFContext "x" (initWorld String String (fun _ => "g"))).2 (-1)) = 0 ∧
      ¬((NewFContext "x" (initWorld String String (fun _ => "g"))).1.Timeout
        ((NewFContext "x" (initWorld String String (fun _ => "g"))).1.SetTimeout
          (NewFContext "x" (initWorld String String (fun _ => "g"))).2 (-1)) < 0) := by
  refine ⟨by decide, by decide, by decide, by decide⟩

/-- Claim C2 (amended): along any trace of constructions and clones from a
fresh process with fewer than 2 ^ 64 draws, the parsed _opid tokens of the
resulting contexts strictly increase in creation order (each draw encodes a
strictly larger counter value than every previous draw) and the resulting
_opid request-header values are pairwise distinct.  (As stated, with no
bound on the number of draws, the claim fails: the counter is a uint64 and
wraps at 2 ^ 64, see the counterexample.) -/
theorem opids_strictly_increasing_and_distinct {κ ν : Type} [DecidableEq κ]
    (gen : Nat → String) (ops : List (GOp κ ν))
    (hall : ∀ op ∈ ops, isCreation op = true) (hlen : ops.length < 2 ^ 64) :
    (runOps (initSys κ ν gen) ops).ctxs.Pairwise (fun a b =>
      (∃ va vb, vOf (runOps (initSys κ ν gen) ops) a = some va ∧
        vOf (runOps (initSys κ ν gen) ops) b = some vb ∧ va < vb) ∧
      opidHeaderOf (runOps (initSys κ ν gen) ops) a
        ≠ opidHeaderOf (runOps (initSys κ ν gen) ops) b) := by
  have hinv0 : OpidInv (initSys κ ν gen) := ⟨by simp [initSys], by simp [initSys],
    by simp [initSys]⟩
  have hstart : (initSys κ ν gen).world.nextOpID + ops.length < 2 ^ 64 := by
    show 0 + ops.length < 2 ^ 64
    omega
  obtain ⟨hval, hex, hpw⟩ := opidInv_run ops (initSys κ ν gen) hall hinv0 hstart
  refine List.Pairwise.imp_of_mem ?_ hpw
  intro a b ha hb hrel
  obtain ⟨va, hva, hva1, hva2⟩ := hex a ha
  obtain ⟨vb, hvb, hvb1, hvb2⟩ := hex b hb
  refine ⟨⟨va, vb, hva, hvb, hrel va vb hva hvb⟩, ?_⟩
  intro heq
  have hva3 : (opidHeaderOf (runOps (initSys κ ν gen) ops) a).bind parseUint64 = some va :=
    hva
  have hvb3 : (opidHeaderOf (runOps (initSys κ ν gen) ops) b).bind parseUint64 = some vb :=
    hvb
  rw [heq] at hva3
  rw [hva3] at hvb3
  have hlt := hrel va vb hva hvb
  have heqv : va = vb := Option.some_inj.mp hvb3
  omega

/-- Witness for claim C2 (amended) on the trace: construct, clone the first
context, construct again. -/
theorem opids_distinct_witness :
    (runOps (initSys String String genFixed)
        [GOp.newCtx "a", GOp.cloneCtx 0, GOp.newCtx ""]).ctxs.Pairwise (fun a b =>
      (∃ va vb, vOf (runOps (initSys String String genFixed)
          [GOp.newCtx "a", GOp.cloneCtx 0, GOp.newCtx ""]) a = some va ∧
        vOf (runOps (initSys String String genFixed)
          [GOp.newCtx "a", GOp.cloneCtx 0, GOp.newCtx ""]) b = some vb ∧ va < vb) ∧
      opidHeaderOf (runOps (initSys String String genFixed)
          [GOp.newCtx "a", GOp.cloneCtx 0, GOp.newCtx ""]) a
        ≠ opidHeaderOf (runOps (initSys String String genFixed)
          [GOp.newCtx "a", GOp.cloneCtx 0, GOp.newCtx ""]) b) :=
  opids_strictly_increasing_and_distinct genFixed
    [GOp.newCtx "a", GOp.cloneCtx 0, GOp.newCtx ""] (by decide) (by decide)

/-- Counterexample to claim C2 as stated: the counter is a uint64 and wraps
modulo 2 ^ 64.  From the fresh state the first draw yields "1"; after
2 ^ 64 - 1 draws the counter sits at 2 ^ 64 - 1, so the 2 ^ 64-th draw
yields "0" — the encoding of 0, which is not strictly larger than the first
draw's 1 — and the draw after that yields "1" again, reusing a value. -/
theorem opid_counter_wraps :
    (getNextOpID (initWorld String String genFixed)).1 = "1" ∧
      (drawMany (initWorld String String genFixed) (2 ^ 64 - 1)).nextOpID = 2 ^ 64 - 1 ∧
      (getNextOpID (drawMany (initWorld String String genFixed) (2 ^ 64 - 1))).1 = "0" ∧
      (getNextOpID (drawMany (initWorld String String genFixed) (2 ^ 64))).1 = "1" ∧
      parseUint64 "0" = some 0 ∧ parseUint64 "1" = some 1 ∧ ¬(1 < 0) := by
  have hfst : ∀ w : World String String,
      (getNextOpID w).1 = formatUint ((w.nextOpID + 1) % 2 ^ 64) := fun _ => rfl
  have h0 : (initWorld String String genFixed).nextOpID = 0 := rfl
  have hw0 : (initWorld String String genFixed).nextOpID < 2 ^ 64 := by
    rw [h0]
    omega
  have h1 := drawMany_nextOpID (initWorld String String genFixed) hw0 (2 ^ 64 - 1)
  have h2 := drawMany_nextOpID (initWorld String String genFixed) hw0 (2 ^ 64)
  rw [h0] at h1 h2
  have h1e : (drawMany (initWorld String String genFixed) (2 ^ 64 - 1)).nextOpID
      = 2 ^ 64 - 1 := by
    rw [h1]
    omega
  have h2e : (drawMany (initWorld String String genFixed) (2 ^ 64)).nextOpID = 0 := by
    rw [h2]
    omega
  refine ⟨by decide, h1e, ?_, ?_, by decide, by decide, by decide⟩
  · rw [hfst, h1e]
    have hz : (2 ^ 64 - 1 + 1) % 2 ^ 64 = 0 := by omega
    rw [hz]
    decide
  · rw [hfst, h2e]
    have ho : (0 + 1) % 2 ^ 64 = 1 := by omega
    rw [ho]
    decide

/-- Claim C3 (amended): along any trace of public operations from a fresh
process, every reachable context's request-header map holds exactly one
_cid, one _opid and one _timeout binding; the _timeout binding parses as a
non-negative integer provided SetTimeout is only called with non-negative
int64 durations and AddRequestHeader never targets the _timeout key.  (As
stated, without that proviso, the parse part fails: SetTimeout with a
negative duration stores a negative string, see the counterexample.) -/
theorem reserved_headers_invariant {κ ν : Type} [DecidableEq κ] (gen : Nat → String)
    (ops : List (GOp κ ν)) (hsafe : ∀ op ∈ ops, timeoutSafe op) :
    ∀ c ∈ (runOps (initSys κ ν gen) ops).ctxs,
      countKey ((runOps (initSys κ ν gen) ops).world.readS c.requestHeaders)
        cidHeader = 1 ∧
      countKey ((runOps (initSys κ ν gen) ops).world.readS c.requestHeaders)
        opIDHeader = 1 ∧
      countKey ((runOps (initSys κ ν gen) ops).world.readS c.requestHeaders)
        timeoutHeader = 1 ∧
      ∃ str i, mapLookup ((runOps (initSys κ ν gen) ops).world.readS c.requestHeaders)
          timeoutHeader = some str ∧ parseInt64 str = some i ∧ 0 ≤ i := by
  have hinv0 : ReservedInv (initSys κ ν gen) :=
    ⟨by simp [initSys], by simp [initSys, ReqRespDisjoint], by simp [initSys]⟩
  have h := reservedInv_run ops (initSys κ ν gen) hsafe hinv0
  intro c hc
  exact h.2.2 c hc

/-- Witness for claim C3 (amended) on the trace: construct, set a 7500 ms
timeout, clone, add an ordinary header to the clone. -/
theorem reserved_headers_witness :
    (∀ op ∈ ([GOp.newCtx "a", GOp.setTimeoutOp 0 7500000000, GOp.cloneCtx 0,
        GOp.addReqHeader 1 "x" "1"] : List (GOp String String)), timeoutSafe op) ∧
      ∀ c ∈ (runOps (initSys String String genFixed)
          [GOp.newCtx "a", GOp.setTimeoutOp 0 7500000000, GOp.cloneCtx 0,
            GOp.addReqHeader 1 "x" "1"]).ctxs,
        countKey ((runOps (initSys String String genFixed)
            [GOp.newCtx "a", GOp.setTimeoutOp 0 7500000000, GOp.cloneCtx 0,
              GOp.addReqHeader 1 "x" "1"]).world.readS c.requestHeaders)
          cidHeader = 1 ∧
        countKey ((runOps (initSys String String genFixed)
            [GOp.newCtx "a", GOp.setTimeoutOp 0 7500000000, GOp.cloneCtx 0,
              GOp.addReqHeader 1 "x" "1"]).world.readS c.requestHeaders)
          opIDHeader = 1 ∧
        countKey ((runOps (initSys String String genFixed)
            [GOp.newCtx "a", GOp.setTimeoutOp 0 7500000000, GOp.cloneCtx 0,
              GOp.addReqHeader 1 "x" "1"]).world.readS c.requestHeaders)
          timeoutHeader = 1 ∧
        ∃ str i, mapLookup ((runOps (initSys String String genFixed)
              [GOp.newCtx "a", GOp.setTimeoutOp 0 7500000000, GOp.cloneCtx 0,
                GOp.addReqHeader 1 "x" "1"]).world.readS c.requestHeaders)
            timeoutHeader = some str ∧ parseInt64 str = some i ∧ 0 ≤ i := by
  have hsafe : ∀ op ∈ ([GOp.newCtx "a", GOp.setTimeoutOp 0 7500000000, GOp.cloneCtx 0,
      GOp.addReqHeader 1 "x" "1"] : List (GOp String String)), timeoutSafe op := by
    intro op hop
    fin_cases hop
    · exact trivial
    · exact ⟨by decide, by decide⟩
    · exact trivial
    · exact (by decide : ("x" : String) ≠ timeoutHeader)
  exact ⟨hsafe, reserved_headers_invariant genFixed _ hsafe⟩

/-- Counterexample to claim C3 as stated: the public operation
SetTimeout(-1 ms) on a freshly constructed context stores "-1" under
_timeout, which does not parse as a non-negative integer. -/
theorem negative_timeout_reachable :
    mapLookup ((runOps (initSys String String genFixed)
        [GOp.newCtx "x", GOp.setTimeoutOp 0 (-1000000)]).world.readS
        (((runOps (initSys String String genFixed)
          [GOp.newCtx "x", GOp.setTimeoutOp 0 (-1000000)]).ctxs.getD 0
          (FContextImpl.mk 0 0 0)).requestHeaders)) timeoutHeader = some "-1" ∧
      parseInt64 "-1" = some (-1) ∧ ¬((0 : Int) ≤ -1) ∧ parseUint64 "-1" = none := by
  refine ⟨by decide, by decide, by decide, by decide⟩

/-- Claim C8: RequestHeaders, ResponseHeaders and EphemeralProperties each
allocate and return a fresh copy of the corresponding map object, not a live
view: the returned object holds the map's bindings at call time, overwriting
the returned object leaves all three of the context's maps unchanged, and
subsequently mutating the context through any mutator leaves the returned
object unchanged. -/
theorem accessors_return_copies {κ ν : Type} [DecidableEq κ] (w : World κ ν)
    (c : FContextImpl)
    (hq : c.requestHeaders < w.heapS.length)
    (hr : c.responseHeaders < w.heapS.length)
    (he : c.ephemeralProperties < w.heapE.length) :
    ((c.RequestHeaders w).2.readS (c.RequestHeaders w).1 = w.readS c.requestHeaders ∧
      (∀ m2, mapsOf ((c.RequestHeaders w).2.writeS (c.RequestHeaders w).1 m2) c
        = mapsOf w c) ∧
      (∀ mop : MutOp κ ν,
        (applyMut c (c.RequestHeaders w).2 mop).readS (c.RequestHeaders w).1
          = (c.RequestHeaders w).2.readS (c.RequestHeaders w).1)) ∧
    ((c.ResponseHeaders w).2.readS (c.ResponseHeaders w).1 = w.readS c.responseHeaders ∧
      (∀ m2, mapsOf ((c.ResponseHeaders w).2.writeS (c.ResponseHeaders w).1 m2) c
        = mapsOf w c) ∧
      (∀ mop : MutOp κ ν,
        (applyMut c (c.ResponseHeaders w).2 mop).readS (c.ResponseHeaders w).1
          = (c.ResponseHeaders w).2.readS (c.ResponseHeaders w).1)) ∧
    ((c.EphemeralProperties w).2.readE (c.EphemeralProperties w).1
        = w.readE c.ephemeralProperties ∧
      (∀ m2, mapsOf ((c.EphemeralProperties w).2.writeE (c.EphemeralProperties w).1 m2) c
        = mapsOf w c) ∧
      (∀ mop : MutOp κ ν,
        (applyMut c (c.EphemeralProperties w).2 mop).readE (c.EphemeralProperties w).1
          = (c.EphemeralProperties w).2.readE (c.EphemeralProperties w).1)) := by
  have e1 : (c.RequestHeaders w).1 = w.heapS.length := rfl
  have e2 : (c.ResponseHeaders w).1 = w.heapS.length := rfl
  have e3 : (c.EphemeralProperties w).1 = w.heapE.length := rfl
  have f1 : (c.RequestHeaders w).2.readS c.requestHeaders = w.readS c.requestHeaders :=
    readS_allocS_lt hq
  have f2 : (c.RequestHeaders w).2.readS c.responseHeaders = w.readS c.responseHeaders :=
    readS_allocS_lt hr
  have f3 : (c.RequestHeaders w).2.readE c.ephemeralProperties
      = w.readE c.ephemeralProperties := rfl
  have g1 : (c.ResponseHeaders w).2.readS c.requestHeaders = w.readS c.requestHeaders :=
    readS_allocS_lt hq
  have g2 : (c.ResponseHeaders w).2.readS c.responseHeaders = w.readS c.responseHeaders :=
    readS_allocS_lt hr
  have g3 : (c.ResponseHeaders w).2.readE c.ephemeralProperties
      = w.readE c.ephemeralProperties := rfl
  have k1 : (c.EphemeralProperties w).2.readS c.requestHeaders
      = w.readS c.requestHeaders := rfl
  have k2 : (c.EphemeralProperties w).2.readS c.responseHeaders
      = w.readS c.responseHeaders := rfl
  have k3 : (c.EphemeralProperties w).2.readE c.ephemeralProperties
      = w.readE c.ephemeralProperties := readE_allocE_lt he
  refine ⟨⟨readS_allocS_self w _, ?_, ?_⟩, ⟨readS_allocS_self w _, ?_, ?_⟩,
    ⟨readE_allocE_self w _, ?_, ?_⟩⟩
  · intro m2
    unfold mapsOf
    rw [readS_writeS_ne _ _ _ _ (by rw [e1]; omega),
      readS_writeS_ne _ _ _ _ (by rw [e1]; omega), readE_writeS, f1, f2, f3]
  · intro mop
    rw [applyMut_readS_ne c _ _ (by rw [e1]; omega) (by rw [e1]; omega) mop]
  · intro m2
    unfold mapsOf
    rw [readS_writeS_ne _ _ _ _ (by rw [e2]; omega),
      readS_writeS_ne _ _ _ _ (by rw [e2]; omega), readE_writeS, g1, g2, g3]
  · intro mop
    rw [applyMut_readS_ne c _ _ (by rw [e2]; omega) (by rw [e2]; omega) mop]
  · intro m2
    unfold mapsOf
    rw [readS_writeE, readS_writeE, readE_writeE_ne _ _ _ _ (by rw [e3]; omega),
      k1, k2, k3]
  · intro mop
    rw [applyMut_readE_ne c _ _ (by rw [e3]; omega) mop]

/-- Witness for claim C8 on a freshly constructed context. -/
theorem accessors_return_copies_witness :
    (ctxA.requestHeaders < worldA.heapS.length) ∧
      (ctxA.RequestHeaders worldA).2.readS (ctxA.RequestHeaders worldA).1
        = worldA.readS ctxA.requestHeaders :=
  ⟨by decide,
    (accessors_return_copies worldA ctxA (by decide) (by decide) (by decide)).1.1⟩

/-- Claim C1 (amended): for a context A with live map objects whose _opid
header still holds a previously drawn token (its parsed value is at most the
current counter value) and fewer than 2 ^ 64 draws so far, the clone B keeps
A's _cid, carries a freshly drawn _opid different from A's, and holds copies
of A's request headers (apart from _opid), response headers and ephemeral
properties taken at clone time; cloning leaves A's maps untouched, and
afterwards mutating A through any mutator changes none of B's maps and vice
versa.  (As stated, with A's _opid allowed to hold anything, the claim
fails: see the counterexample, which overwrites A's _opid with the token the
generator draws next.) -/
theorem clone_isolation {κ ν : Type} [DecidableEq κ] (w : World κ ν) (A : FContextImpl)
    (hq : A.requestHeaders < w.heapS.length)
    (hr : A.responseHeaders < w.heapS.length)
    (he : A.ephemeralProperties < w.heapE.length)
    (hfresh : w.nextOpID + 1 < 2 ^ 64)
    (hA : ∀ str, mapLookup (w.readS A.requestHeaders) opIDHeader = some str →
      ∃ v, parseUint64 str = some v ∧ v ≤ w.nextOpID) :
    (mapLookup ((A.Clone w).2.readS (A.Clone w).1.requestHeaders) cidHeader
      = mapLookup (w.readS A.requestHeaders) cidHeader) ∧
      (mapLookup ((A.Clone w).2.readS (A.Clone w).1.requestHeaders) opIDHeader
        = some (formatUint ((w.nextOpID + 1) % 2 ^ 64)) ∧
       mapLookup ((A.Clone w).2.readS (A.Clone w).1.requestHeaders) opIDHeader
        ≠ mapLookup (w.readS A.requestHeaders) opIDHeader) ∧
      ((∀ name, name ≠ opIDHeader →
          mapLookup ((A.Clone w).2.readS (A.Clone w).1.requestHeaders) name
            = mapLookup (w.readS A.requestHeaders) name) ∧
        (A.Clone w).2.readS (A.Clone w).1.responseHeaders = w.readS A.responseHeaders ∧
        (A.Clone w).2.readE (A.Clone w).1.ephemeralProperties
          = w.readE A.ephemeralProperties) ∧
      mapsOf (A.Clone w).2 A = mapsOf w A ∧
      (∀ mop : MutOp κ ν, mapsOf (applyMut A (A.Clone w).2 mop) (A.Clone w).1
        = mapsOf (A.Clone w).2 (A.Clone w).1) ∧
      (∀ mop : MutOp κ ν, mapsOf (applyMut (A.Clone w).1 (A.Clone w).2 mop) A
        = mapsOf (A.Clone w).2 A) := by
  obtain ⟨s1, s2, s3, s4, s5, s6, s7, s8, s9, s10, s11, s12⟩ := Clone_shape w A hq hr he
  have hmod : (w.nextOpID + 1) % 2 ^ 64 = w.nextOpID + 1 := Nat.mod_eq_of_lt hfresh
  refine ⟨?_, ⟨?_, ?_⟩, ⟨?_, s5, s6⟩, s7, ?_, ?_⟩
  · rw [s4, mapLookup_mapInsert_ne _ _ _ _ (by decide)]
  · rw [s4, mapLookup_mapInsert_self]
  · rw [s4, mapLookup_mapInsert_self]
    intro hcontra
    rcases hl : mapLookup (w.readS A.requestHeaders) opIDHeader with _ | str
    · rw [hl] at hcontra
      exact Option.noConfusion hcontra
    · obtain ⟨v, hv, hvle⟩ := hA str hl
      rw [hl] at hcontra
      have hstr : formatUint ((w.nextOpID + 1) % 2 ^ 64) = str := Option.some_inj.mp hcontra
      have hparse : parseUint64 (formatUint ((w.nextOpID + 1) % 2 ^ 64))
          = some ((w.nextOpID + 1) % 2 ^ 64) :=
        parseUint64_formatUint _ (by rw [hmod]; omega)
      rw [hstr, hv, hmod] at hparse
      have : v = w.nextOpID + 1 := Option.some_inj.mp hparse
      omega
  · intro name hname
    rw [s4, mapLookup_mapInsert_ne _ _ _ _ hname]
  · intro mop
    exact applyMut_mapsOf_other A (A.Clone w).1 _ (by omega) (by omega) (by omega)
      (by omega) (by omega) mop
  · intro mop
    exact applyMut_mapsOf_other (A.Clone w).1 A _ (by omega) (by omega) (by omega)
      (by omega) (by omega) mop

/-- Witness for claim C1 (amended): the clone of a freshly constructed
context keeps the correlation id and carries a different operation id. -/
theorem clone_isolation_witness :
    mapLookup (worldC.readS ctxC.requestHeaders) cidHeader
      = mapLookup (worldA.readS ctxA.requestHeaders) cidHeader ∧
      mapLookup (worldC.readS ctxC.requestHeaders) opIDHeader
        ≠ mapLookup (worldA.readS ctxA.requestHeaders) opIDHeader := by
  have h := clone_isolation worldA ctxA (by decide) (by decide) (by decide) (by decide)
    (fun str hstr => by
      have hl : mapLookup (worldA.readS ctxA.requestHeaders) opIDHeader = some "1" := by
        decide
      rw [hl] at hstr
      obtain rfl : "1" = str := Option.some_inj.mp hstr
      exact ⟨1, by decide, by decide⟩)
  exact ⟨h.1, h.2.1.2⟩

/-- Counterexample to claim C1 as stated: after overwriting the parent's
_opid request header with "2" (the token the generator draws next), the
clone's freshly drawn _opid equals the parent's, so "B's _opid differs from
A's _opid" fails for this context. -/
theorem clone_opid_collision_after_overwrite :
    mapLookup (worldB.readS ctxB.requestHeaders) opIDHeader = some "2" ∧
      mapLookup (worldB.readS ctxA.requestHeaders) opIDHeader = some "2" ∧
      mapLookup (worldB.readS ctxB.requestHeaders) opIDHeader
        = mapLookup (worldB.readS ctxA.requestHeaders) opIDHeader := by
  refine ⟨by decide, by decide, by decide⟩

end Frugal
